import Mathlib

/-!
# Verification of the boardy-api aggregation and member-management handlers

Shallow embedding of the TypeScript request handlers of the boardy-api
backend (dashboard aggregation, calendar aggregation, bulk member add,
project create/delete) over an explicit relational store, together with
proofs about the visibility-set computation, deduplication/merge
precedence, team-size estimation, deadline windows and the
authorization/compensation behaviour of the mutating endpoints.

Conventions of the embedding:
* timestamps and DATE values are natural numbers (seconds since epoch);
  `dayOf` truncates a timestamp to its day, modelling both
  `setHours(0,0,0,0)` and `toISOString().split("T")[0]` comparisons;
* JavaScript string normalisation (`trim().toLowerCase()`) is modelled on
  the underlying character list so that it is kernel-computable;
* `[...new Set(l)]` is `jsSetDedup` (first-occurrence-order dedup);
* JavaScript `Map` built by repeated `set` is modelled by a last-wins
  lookup (`jsMapFind`);
* supabase queries are pure list operations over the store; the success
  path is modelled, store errors being injected explicitly only where a
  claim is about a failure path (`createProject`).
-/

namespace Boardy

/-- JS `String.prototype.toLowerCase`, modelled on the character list
(ASCII case folding, like `Char.toLower`). -/
def lowerStr (s : String) : String := ⟨s.data.map Char.toLower⟩

/-- JS `String.prototype.trim`: strip whitespace from both ends. -/
def trimStr (s : String) : String :=
  ⟨((s.data.dropWhile Char.isWhitespace).reverse.dropWhile Char.isWhitespace).reverse⟩

/-- One step of JS `Set` insertion (insertion order, duplicates ignored). -/
def jsSetStep {α : Type} [DecidableEq α] (acc : List α) (x : α) : List α :=
  if x ∈ acc then acc else acc ++ [x]

/-- JS `[...new Set(l)]`: deduplication keeping the first occurrence of
each element, in encounter order. -/
def jsSetDedup {α : Type} [DecidableEq α] (l : List α) : List α :=
  l.foldl jsSetStep []

/-- Lookup in a JS `Map` built by iterating `set` over a list: the *last*
entry for a key wins. -/
def jsMapFind {α : Type} (p : α → Bool) (l : List α) : Option α :=
  l.reverse.find? p

/-- Truncate a timestamp to its day: models `setHours(0,0,0,0)` and
date-string (`YYYY-MM-DD`) comparisons. -/
def dayOf (t : Nat) : Nat := t / 86400

/-! ## Data model (src/types/database.ts, supabase tables)

Surrogate keys that no modelled handler reads (`project_members.id`,
`project_members.added_at`, `users.clerk_user_id`, `avatar_url`,
`updated_at`, `tasks.created_by`) are omitted. -/

/-- A row of the `users` table. -/
structure UserRow where
  user_id : Nat
  name : String
  email : String
deriving DecidableEq, Repr

/-- A row of the `projects` table.  `status` and `priority` are kept as raw
strings, as the handlers treat them generically. -/
structure ProjectRow where
  project_id : Nat
  project_uuid : String
  name : String
  description : String
  status : String
  priority : String
  start_date : Nat
  end_date : Nat
  owner_id : Nat
  created_at : Nat
deriving DecidableEq, Repr

/-- A row of the `project_members` table.  `user_id` is `none` for a member
invited by email who has not registered. -/
structure MemberRow where
  project_uuid : String
  user_id : Option Nat
  member_email : String
  role : String
deriving DecidableEq, Repr

/-- A row of the `tasks` table; `due_date` is nullable. -/
structure TaskRow where
  task_id : Nat
  project_uuid : String
  title : String
  description : String
  status : String
  priority : String
  due_date : Option Nat
  created_at : Nat
deriving DecidableEq, Repr

/-- A row of the `task_assignments` table. -/
structure AssignmentRow where
  task_id : Nat
  user_id : Nat
  assigned_at : Nat
deriving DecidableEq, Repr

/-- The external relational store as seen by the handlers. -/
structure Store where
  users : List UserRow
  projects : List ProjectRow
  project_members : List MemberRow
  tasks : List TaskRow
  task_assignments : List AssignmentRow
deriving DecidableEq, Repr

/-! ## Dashboard aggregation (dashboardController.ts, `getDashboardData`) -/

/-- `supabase.from("projects").select("project_uuid").eq("owner_id", userId)`
mapped to its `project_uuid` column. -/
def ownedProjectUuids (s : Store) (userId : Nat) : List String :=
  (s.projects.filter (fun p => decide (p.owner_id = userId))).map (·.project_uuid)

/-- `supabase.from("project_members").select("project_uuid").eq("user_id", userId)`
mapped to its `project_uuid` column.  An email-only row (`user_id` null)
does not match the equality filter. -/
def memberProjectUuids (s : Store) (userId : Nat) : List String :=
  (s.project_members.filter (fun m => decide (m.user_id = some userId))).map (·.project_uuid)

/-- `[...new Set([...ownedProjectUuids, ...memberProjectUuids])]`. -/
def allProjectUuids (s : Store) (userId : Nat) : List String :=
  jsSetDedup (ownedProjectUuids s userId ++ memberProjectUuids s userId)

/-- `supabase.from("projects").select(...).in("project_uuid", allProjectUuids)`. -/
def visibleProjects (s : Store) (userId : Nat) : List ProjectRow :=
  s.projects.filter (fun p => decide (p.project_uuid ∈ allProjectUuids s userId))

/-- `allProjects.filter((project) => { const endDate = new Date(project.end_date);
endDate.setHours(0,0,0,0); return endDate < today; })` with `today` truncated
to midnight. -/
def completedProjects (s : Store) (userId today : Nat) : List ProjectRow :=
  (visibleProjects s userId).filter (fun p => decide (dayOf p.end_date < dayOf today))

/-- `supabase.from("project_members").select("member_email, user_id")
.in("project_uuid", allProjectUuids)`. -/
def visibleMembers (s : Store) (userId : Nat) : List MemberRow :=
  s.project_members.filter (fun m => decide (m.project_uuid ∈ allProjectUuids s userId))

/-- The `uniqueUserIds` set after the first two `forEach` passes: owner ids
(truthy, i.e. non-zero) of all visible projects and resolved (truthy)
member `user_id`s. -/
def baseUserIds (s : Store) (userId : Nat) : Finset Nat :=
  ((((visibleProjects s userId).filter
      (fun p => decide (p.owner_id ≠ 0))).map (·.owner_id)).toFinset) ∪
  ((visibleMembers s userId).filterMap
      (fun m => match m.user_id with
        | some u => if u ≠ 0 then some u else none
        | none => none)).toFinset

/-- The `memberEmails` set: truthy `member_email` values of visible member
rows, lower-cased. -/
def memberEmailSet (s : Store) (userId : Nat) : Finset String :=
  ((visibleMembers s userId).filterMap
      (fun m => if m.member_email ≠ "" then some (lowerStr m.member_email) else none)).toFinset

/-- `supabase.from("users").select("user_id, email").in("email", memberEmailsArray)`. -/
def usersByEmail (s : Store) (userId : Nat) : List UserRow :=
  s.users.filter (fun u => decide (u.email ∈ memberEmailSet s userId))

/-- The dashboard team-size estimate (`totalTeamMembers`): distinct known
user ids plus invited emails that match no registered account.  When no
member email exists, just the size of the base id set. -/
def totalTeamMembers (s : Store) (userId : Nat) : Nat :=
  if memberEmailSet s userId = ∅ then
    (baseUserIds s userId).card
  else
    (baseUserIds s userId ∪
      ((((usersByEmail s userId).filter
          (fun u => decide (u.user_id ≠ 0))).map (·.user_id)).toFinset)).card +
    (memberEmailSet s userId \
      (((usersByEmail s userId).map (fun u => lowerStr u.email)).toFinset)).card

/-- The project summary stored in the per-request `projectsMap`. -/
structure ProjectSummary where
  project_id : Nat
  project_uuid : String
  name : String
deriving DecidableEq, Repr

/-- `projectsMap.get(uuid)`: the map is built by one `forEach` pass over the
fetched projects, so a later row with the same uuid overwrites an earlier
one (last-wins). -/
def projectsMapFind (ps : List ProjectRow) (uuid : String) : Option ProjectSummary :=
  (jsMapFind (fun p => decide (p.project_uuid = uuid)) ps).map
    (fun p => ⟨p.project_id, p.project_uuid, p.name⟩)

/-- The shaped task record returned in `recentTasks` / `upcomingDeadlines`. -/
structure FormattedTask where
  task_id : Nat
  project_id : Option Nat
  project_uuid : String
  name : String
  description : String
  status : String
  priority : String
  due_date : Option Nat
  created_at : Nat
  project : Option ProjectSummary
deriving DecidableEq, Repr

/-- The `.map` shaping a raw task row into the dashboard response shape. -/
def formatDashboardTask (ps : List ProjectRow) (t : TaskRow) : FormattedTask :=
  { task_id := t.task_id
    project_id := (projectsMapFind ps t.project_uuid).map (·.project_id)
    project_uuid := t.project_uuid
    name := t.title
    description := t.description
    status := t.status
    priority := t.priority
    due_date := t.due_date
    created_at := t.created_at
    project := projectsMapFind ps t.project_uuid }

/-- The upcoming-deadlines query:
`.in("project_uuid", allProjectUuids).lte("due_date", today+14 as date)
.gte("due_date", today as date).not("due_date","is",null)
.order("due_date", ascending).limit(10)`. -/
def upcomingTasksRaw (s : Store) (userId today : Nat) : List TaskRow :=
  ((s.tasks.filter (fun t =>
      decide (t.project_uuid ∈ allProjectUuids s userId) &&
      match t.due_date with
      | some d => decide (dayOf d ≤ dayOf today + 14) && decide (dayOf today ≤ dayOf d)
      | none => false)).insertionSort
    (fun a b => a.due_date.getD 0 ≤ b.due_date.getD 0)).take 10

/-- `formattedUpcomingDeadlines`. -/
def upcomingDeadlines (s : Store) (userId today : Nat) : List FormattedTask :=
  (upcomingTasksRaw s userId today).map (formatDashboardTask (visibleProjects s userId))

/-- The dashboard response payload (fields the verified claims are about;
`recentTasks` and the status/priority histograms are analogous single-pass
derivations that no claim mentions). -/
structure DashboardData where
  completedProjects : Nat
  totalProjects : Nat
  totalTeamMembers : Nat
  upcomingDeadlines : List FormattedTask
deriving DecidableEq, Repr

/-- `getDashboardData`: computes the visibility set, short-circuits to a
zero summary when it is empty, otherwise derives the summaries. -/
def getDashboardData (s : Store) (userId today : Nat) : DashboardData :=
  if allProjectUuids s userId = [] then
    { completedProjects := 0
      totalProjects := 0
      totalTeamMembers := 0
      upcomingDeadlines := [] }
  else
    { completedProjects := (completedProjects s userId today).length
      totalProjects := (visibleProjects s userId).length
      totalTeamMembers := totalTeamMembers s userId
      upcomingDeadlines := upcomingDeadlines s userId today }

/-! ## Calendar aggregation (calendarController.ts, `getCalendarData`)

The handler receives optional `start_date`/`end_date` query parameters;
both must be present for the date filters to apply, modelled as an
`Option (Nat × Nat)` range. -/

/-- The owned-projects query: `.eq("owner_id", userId)`, plus — when a range
is supplied — `.gte("end_date", start_date).lte("start_date", end_date)`
(overlap test). -/
def calendarOwnedProjects (s : Store) (userId : Nat) (range : Option (Nat × Nat)) :
    List ProjectRow :=
  s.projects.filter (fun p =>
    decide (p.owner_id = userId) &&
    match range with
    | some (qs, qe) => decide (qs ≤ p.end_date) && decide (p.start_date ≤ qe)
    | none => true)

/-- The member-projects query: member rows with `.eq("user_id", userId)`,
each carrying its embedded `projects:project_uuid` join (`none` when the
referenced project row is missing). -/
def calendarMemberRows (s : Store) (userId : Nat) : List (MemberRow × Option ProjectRow) :=
  (s.project_members.filter (fun m => decide (m.user_id = some userId))).map
    (fun m => (m, s.projects.find? (fun p => decide (p.project_uuid = m.project_uuid))))

/-- `memberProjects.map((m) => m.projects?.project_uuid).filter(is string)`. -/
def calendarMemberProjectUuids (s : Store) (userId : Nat) : List String :=
  (calendarMemberRows s userId).filterMap (fun mp => mp.2.map (·.project_uuid))

/-- The calendar's visibility set
`[...new Set([...ownedProjectUuids, ...memberProjectUuids])]`. -/
def calendarAllProjectUuids (s : Store) (userId : Nat) (range : Option (Nat × Nat)) :
    List String :=
  jsSetDedup ((calendarOwnedProjects s userId range).map (·.project_uuid) ++
    calendarMemberProjectUuids s userId)

/-- The propositional form of the calendar's owned-projects date filter:
the project's `[start_date, end_date]` interval overlaps the supplied
range (vacuously true when no range is supplied). -/
def rangeOverlap (range : Option (Nat × Nat)) (p : ProjectRow) : Prop :=
  match range with
  | some (qs, qe) => qs ≤ p.end_date ∧ p.start_date ≤ qe
  | none => True

instance (range : Option (Nat × Nat)) (p : ProjectRow) : Decidable (rangeOverlap range p) := by
  unfold rangeOverlap
  match range with
  | some (qs, qe) => infer_instance
  | none => infer_instance

/-- A project record as shaped by the calendar handler (`{...p, role, isOwner}`). -/
structure CalendarProject where
  project : ProjectRow
  role : String
  isOwner : Bool
deriving DecidableEq, Repr

/-- `formattedProjects`: owned records first (role `"owner"`, `isOwner` true),
then the member-sourced records whose join resolved (role from the member
row, `isOwner` false). -/
def calendarFormattedProjects (s : Store) (userId : Nat) (range : Option (Nat × Nat)) :
    List CalendarProject :=
  (calendarOwnedProjects s userId range).map (fun p => ⟨p, "owner", true⟩) ++
  (calendarMemberRows s userId).filterMap
    (fun mp => mp.2.map (fun p => ⟨p, mp.1.role, false⟩))

/-- One step of the `reduce`-based dedup used for both the calendar's
projects and tasks: push an unseen key, and overwrite the existing entry
in place only when the incoming record wins the tie-break. -/
def dedupStep {α κ : Type} [DecidableEq κ] (key : α → κ) (wins : α → Bool)
    (acc : List α) (x : α) : List α :=
  match acc.findIdx? (fun y => decide (key y = key x)) with
  | none => acc ++ [x]
  | some i => if wins x then acc.set i x else acc

/-- The `reduce((acc, x) => ..., [])` dedup-by-key with a tie-break flag. -/
def dedupByKey {α κ : Type} [DecidableEq κ] (key : α → κ) (wins : α → Bool)
    (l : List α) : List α :=
  l.foldl (dedupStep key wins) []

/-- `uniqueProjects`: dedup of `formattedProjects` by `project_uuid`; an
owned record overwrites a previously pushed record with the same uuid. -/
def calendarUniqueProjects (s : Store) (userId : Nat) (range : Option (Nat × Nat)) :
    List CalendarProject :=
  dedupByKey (fun cp => cp.project.project_uuid) (fun cp => cp.isOwner)
    (calendarFormattedProjects s userId range)

/-- The assigned-tasks query: assignment rows with `.eq("user_id", userId)`,
each carrying its embedded `tasks:task_id` join. -/
def calendarAssignmentRows (s : Store) (userId : Nat) :
    List (AssignmentRow × Option TaskRow) :=
  (s.task_assignments.filter (fun a => decide (a.user_id = userId))).map
    (fun a => (a, s.tasks.find? (fun t => decide (t.task_id = a.task_id))))

/-- `assignedTasksRaw.filter(at => at.tasks && allProjectUuids.includes(at.tasks.project_uuid))`. -/
def calendarAssignedTasks (s : Store) (userId : Nat) (range : Option (Nat × Nat)) :
    List (AssignmentRow × TaskRow) :=
  (calendarAssignmentRows s userId).filterMap (fun atp =>
    match atp.2 with
    | some t =>
      if t.project_uuid ∈ calendarAllProjectUuids s userId range then some (atp.1, t)
      else none
    | none => none)

/-- The project-tasks query: `.in("project_uuid", allProjectUuids)`, plus —
when a range is supplied — `.gte("due_date", start).lte("due_date", end)
.not("due_date","is",null)`. -/
def calendarProjectTasks (s : Store) (userId : Nat) (range : Option (Nat × Nat)) :
    List TaskRow :=
  s.tasks.filter (fun t =>
    decide (t.project_uuid ∈ calendarAllProjectUuids s userId range) &&
    match range with
    | some (qs, qe) =>
      match t.due_date with
      | some d => decide (qs ≤ d) && decide (d ≤ qe)
      | none => false
    | none => true)

/-- The list the calendar's `projectsMap` is built from:
`[...ownedProjects, ...memberProjects.map(m => m.projects).filter(Boolean)]`. -/
def calendarProjectsMapSource (s : Store) (userId : Nat) (range : Option (Nat × Nat)) :
    List ProjectRow :=
  calendarOwnedProjects s userId range ++
  (calendarMemberRows s userId).filterMap (·.2)

/-- A task record as shaped by the calendar handler
(`{...task, name, projects, assigned_at?, isAssigned}`). -/
structure CalendarTask where
  task : TaskRow
  name : String
  project : Option ProjectSummary
  assigned_at : Option Nat
  isAssigned : Bool
deriving DecidableEq, Repr

/-- `formattedAssignedTasks`: the assigned variants, carrying `assigned_at`. -/
def calendarFormattedAssignedTasks (s : Store) (userId : Nat)
    (range : Option (Nat × Nat)) : List CalendarTask :=
  (calendarAssignedTasks s userId range).map (fun at' =>
    { task := at'.2
      name := at'.2.title
      project := projectsMapFind (calendarProjectsMapSource s userId range) at'.2.project_uuid
      assigned_at := some at'.1.assigned_at
      isAssigned := true })

/-- `allTasks`: the assigned variants followed by the plain project-task
variants (no `assigned_at`). -/
def calendarAllTasks (s : Store) (userId : Nat) (range : Option (Nat × Nat)) :
    List CalendarTask :=
  calendarFormattedAssignedTasks s userId range ++
  (calendarProjectTasks s userId range).map (fun t =>
    { task := t
      name := t.title
      project := projectsMapFind (calendarProjectsMapSource s userId range) t.project_uuid
      assigned_at := none
      isAssigned := false })

/-- `uniqueTasks`: dedup of `allTasks` by `task_id`; an assigned variant
overwrites a previously pushed record with the same id. -/
def calendarUniqueTasks (s : Store) (userId : Nat) (range : Option (Nat × Nat)) :
    List CalendarTask :=
  dedupByKey (fun ct => ct.task.task_id) (fun ct => ct.isAssigned)
    (calendarAllTasks s userId range)

/-- The calendar summary block. -/
structure CalendarSummary where
  totalProjects : Nat
  ownedProjects : Nat
  memberProjects : Nat
  totalTasks : Nat
  assignedTasks : Nat
deriving DecidableEq, Repr

/-- The calendar response payload. -/
structure CalendarData where
  projects : List CalendarProject
  tasks : List CalendarTask
  summary : CalendarSummary
deriving DecidableEq, Repr

/-- `getCalendarData`: computes the visibility set, short-circuits to an
empty payload when it is empty, otherwise merges and summarises. -/
def getCalendarData (s : Store) (userId : Nat) (range : Option (Nat × Nat)) :
    CalendarData :=
  if calendarAllProjectUuids s userId range = [] then
    { projects := [], tasks := [], summary := ⟨0, 0, 0, 0, 0⟩ }
  else
    { projects := calendarUniqueProjects s userId range
      tasks := calendarUniqueTasks s userId range
      summary :=
        { totalProjects := (calendarUniqueProjects s userId range).length
          ownedProjects := (calendarOwnedProjects s userId range).length
          memberProjects := (calendarMemberRows s userId).length
          totalTasks := (calendarUniqueTasks s userId range).length
          assignedTasks := (calendarFormattedAssignedTasks s userId range).length } }

/-! ## Bulk member add (projectMembersController.ts, `bulkAddProjectMembers`) -/

/-- A member row as built for insertion (the database assigns the surrogate
id and `added_at`). -/
def mkMemberRow (projectUuid : String) (userId : Option Nat) (email role : String) :
    MemberRow :=
  { project_uuid := projectUuid, user_id := userId, member_email := email, role := role }

/-- `userByEmail.get(email) || null`: a JS falsy resolved id (0) is coerced
back to null. -/
def resolvedUserId (users : List UserRow) (email : String) : Option Nat :=
  match (jsMapFind (fun u => decide (lowerStr u.email = email)) users).map (·.user_id) with
  | some uid => if uid = 0 then none else some uid
  | none => none

/-- Outcome of the bulk member-add endpoint.  `badRequest` covers the two
400 validations, `conflict` the all-duplicates 409. -/
inductive BulkAddResult where
  | badRequest
  | notFound
  | forbidden
  | conflict
  | storeError
  | created (inserted : List MemberRow)
deriving DecidableEq, Repr

/-- `memberEmails.map(e => e.trim().toLowerCase()).filter(Boolean)` then
`Array.from(new Set(...))`. -/
def cleanEmails (memberEmails : List String) : List String :=
  jsSetDedup ((memberEmails.map (fun e => lowerStr (trimStr e))).filter (fun e => e ≠ ""))

/-- Lower-cased emails of the project's existing member rows
(`existingEmailSet`). -/
def existingMemberEmails (s : Store) (projectUuid : String) : List String :=
  ((s.project_members.filter (fun m => decide (m.project_uuid = projectUuid))).map
    (fun m => lowerStr m.member_email))

/-- `newEmails`: the cleaned input minus emails already present as members
of the project. -/
def bulkNewEmails (s : Store) (projectUuid : String) (emails : List String) : List String :=
  (cleanEmails emails).filter (fun e => e ∉ existingMemberEmails s projectUuid)

/-- `memberRows`: the rows handed to the batch insert — one per new email,
with the `user_id` resolved by the batch user lookup
(`.in("email", newEmails)`). -/
def bulkInsertRows (s : Store) (projectUuid : String) (emails : List String)
    (defaultRole : Option String) : List MemberRow :=
  (bulkNewEmails s projectUuid emails).map (fun e =>
    mkMemberRow projectUuid
      (resolvedUserId
        (s.users.filter (fun u => decide (u.email ∈ bulkNewEmails s projectUuid emails))) e)
      e (defaultRole.getD "viewer"))

/-- `bulkAddProjectMembers`: authorize (owner, or member with role admin or
owner), normalize and dedup the input, drop emails already present, 409 if
nothing is left, otherwise insert exactly the new subset.  Returns the
outcome together with the resulting store. -/
def bulkAddProjectMembers (s : Store) (projectUuid : String) (userId : Nat)
    (memberEmails : Option (List String)) (defaultRole : Option String) :
    BulkAddResult × Store :=
  match memberEmails with
  | none => (.badRequest, s)
  | some emails =>
    if emails.isEmpty then (.badRequest, s)
    else
      match s.projects.find? (fun p => decide (p.project_uuid = projectUuid)) with
      | none => (.notFound, s)
      | some project =>
        let isOwner := project.owner_id = userId
        let memberRole := (s.project_members.find? (fun m =>
          decide (m.project_uuid = projectUuid) && decide (m.user_id = some userId))).map
            (·.role)
        if ¬ isOwner ∧ ¬ (memberRole = some "admin" ∨ memberRole = some "owner") then
          (.forbidden, s)
        else
          if (cleanEmails emails).isEmpty then (.badRequest, s)
          else
            if (bulkNewEmails s projectUuid emails).isEmpty then (.conflict, s)
            else
              (.created (bulkInsertRows s projectUuid emails defaultRole),
                { s with project_members :=
                    s.project_members ++ bulkInsertRows s projectUuid emails defaultRole })

/-! ## Project deletion (projectsController.ts, `deleteProject`) -/

/-- Outcome of the (single or bulk) delete endpoint. -/
inductive DeleteResult where
  | forbidden
  | success (deletedCount : Nat)
deriving DecidableEq, Repr

/-- `deleteProject`: resolves the requested uuid list (bulk body wins over
the path parameter when non-empty), fetches the matching projects, rejects
the whole batch if any fetched project has a different owner, otherwise
deletes by `.in("project_uuid", uuidsToDelete)` and reports the *requested*
count. -/
def requestedDeleteUuids (paramUuid : String) (bodyProjectIds : Option (List String)) :
    List String :=
  match bodyProjectIds with
  | some ids => if ids.length > 0 then ids else [paramUuid]
  | none => [paramUuid]

def deleteProject (s : Store) (userId : Nat) (paramUuid : String)
    (bodyProjectIds : Option (List String)) : DeleteResult × Store :=
  let uuidsToDelete := requestedDeleteUuids paramUuid bodyProjectIds
  let fetched := s.projects.filter (fun p => decide (p.project_uuid ∈ uuidsToDelete))
  let unauthorizedProjects := fetched.filter (fun p => decide (p.owner_id ≠ userId))
  if unauthorizedProjects.length > 0 then
    (.forbidden, s)
  else
    (.success uuidsToDelete.length,
      { s with projects :=
          s.projects.filter (fun p => decide (p.project_uuid ∉ uuidsToDelete)) })

/-! ## Project creation (projectsController.ts, `createProject`)

The claim under verification concerns the compensation behaviour when a
step *after* the project insert fails, so the store errors of the batch
user lookup and of the member insert are injected explicitly; the project
insert itself is modelled on its success path (its failure aborts before
anything was created). -/

/-- Which later step of `createProject` the store fails on. -/
inductive CreateFailure where
  | usersLookup
  | membersInsert
deriving DecidableEq, Repr

/-- Outcome of `createProject`. -/
inductive CreateResult where
  | storeError
  | created (membersAdded : Nat)
deriving DecidableEq, Repr

/-- `createProject`: normalizes `memberEmails` (trim/lower-case, drop empty,
dedup), inserts the project row (uuid generated by the database, here the
uuid of `newProject`), returns early when no member emails were supplied;
otherwise batch-looks-up users by email and batch-inserts the member rows.
If the lookup or the insert fails, the just-created project row is deleted
(`.delete().eq("project_uuid", projectUuid)`) before the error returns. -/
def createProject (s : Store) (newProject : ProjectRow)
    (memberEmailsRaw : Option (List String)) (failAt : Option CreateFailure) :
    CreateResult × Store :=
  let memberEmails := memberEmailsRaw.map cleanEmails
  let s1 : Store := { s with projects := s.projects ++ [newProject] }
  let rollback : Store :=
    { s1 with
      projects :=
        s1.projects.filter (fun p => decide (p.project_uuid ≠ newProject.project_uuid)) }
  match memberEmails with
  | none => (.created 0, s1)
  | some emails =>
    if emails.isEmpty then (.created 0, s1)
    else if failAt = some .usersLookup then (.storeError, rollback)
    else
      let foundUsers := s1.users.filter (fun u => decide (u.email ∈ emails))
      let rows := emails.map (fun e =>
        mkMemberRow newProject.project_uuid (resolvedUserId foundUsers e) e "viewer")
      if failAt = some .membersInsert then (.storeError, rollback)
      else (.created rows.length,
        { s1 with project_members := s1.project_members ++ rows })

/-! ## Spec-side team size and store well-formedness -/

/-- Team-size estimate written from the specification's words (§4.3), for
comparison with the implementation-derived `totalTeamMembers`: the number
of distinct known user ids — owners, members with a resolved `user_id`,
and users whose registered email case-insensitively matches an invited
`member_email` — plus the number of invited emails matching no registered
user. -/
def teamSizeSpec (s : Store) (userId : Nat) : Nat :=
  (((visibleProjects s userId).map (·.owner_id)).toFinset ∪
    ((visibleMembers s userId).filterMap (·.user_id)).toFinset ∪
    ((s.users.filter (fun u =>
        (visibleMembers s userId).any (fun m =>
          decide (lowerStr u.email = lowerStr m.member_email)))).map
      (·.user_id)).toFinset).card +
  ((visibleMembers s userId).filterMap (fun m =>
      if s.users.any (fun u => decide (lowerStr u.email = lowerStr m.member_email)) then
        none
      else some (lowerStr m.member_email))).toFinset.card

/-- Schema-level well-formedness used by the refinement theorems: user
emails are stored in lower-cased canonical form (enforced by every write
path of `usersController`), serial ids are positive, and `member_email` is
`NOT NULL` (non-empty). -/
def WFStore (s : Store) : Prop :=
  (∀ u ∈ s.users, lowerStr u.email = u.email ∧ u.user_id ≠ 0) ∧
  (∀ p ∈ s.projects, p.owner_id ≠ 0) ∧
  (∀ m ∈ s.project_members, m.member_email ≠ "" ∧ m.user_id ≠ some 0)

instance (s : Store) : Decidable (WFStore s) := by
  unfold WFStore
  infer_instance

/-! ## Concrete stores for witnesses and counterexamples -/

/-- A user owning a single project `"a"` running on day 0, member of
nothing. -/
def storeA : Store :=
  { users := [⟨1, "u", "u@x.com"⟩]
    projects := [⟨1, "a", "A", "", "On track", "Low", 0, 0, 1, 0⟩]
    project_members := []
    tasks := []
    task_assignments := [] }

/-- The §8 scenario: user 1 owns `"p1"` and is recorded on `"p2"` (owned by
user 2) only by email — the member row has user 1's registered email but a
null `user_id`. -/
def storeScenario : Store :=
  { users := [⟨1, "u", "u@x.com"⟩, ⟨2, "o", "o@x.com"⟩]
    projects :=
      [⟨1, "p1", "P1", "", "On track", "Low", 0, 8640000, 1, 0⟩,
       ⟨2, "p2", "P2", "", "On track", "Low", 0, 8640000, 2, 0⟩]
    project_members := [⟨"p2", none, "u@x.com", "viewer"⟩]
    tasks := []
    task_assignments := [] }

/-- User 1 owns project `"a"` and is also explicitly listed as an `editor`
member of it; task 10 of `"a"` is both assigned to user 1 and a plain
project task, and is due on day 1. -/
def storeMerge : Store :=
  { users := [⟨1, "u", "u@x.com"⟩]
    projects := [⟨1, "a", "A", "", "On track", "Low", 0, 86400, 1, 0⟩]
    project_members := [⟨"a", some 1, "u@x.com", "editor"⟩]
    tasks := [⟨10, "a", "T", "", "On track", "Low", some 86400, 0⟩]
    task_assignments := [⟨10, 1, 5⟩] }

/-- User 1 owns `"p1"`, which has one resolved member row carrying user 1's
own email and one email-only member row for an unregistered address. -/
def storeTeam : Store :=
  { users := [⟨1, "u", "u@x.com"⟩]
    projects := [⟨1, "p1", "P1", "", "On track", "Low", 0, 86400, 1, 0⟩]
    project_members :=
      [⟨"p1", some 1, "u@x.com", "viewer"⟩, ⟨"p1", none, "b@y.com", "viewer"⟩]
    tasks := []
    task_assignments := [] }

/-- An empty project `"p"` owned by user 1, for the bulk member-add
witness. -/
def storeBulk : Store :=
  { users := []
    projects := [⟨1, "p", "P", "", "On track", "Low", 0, 0, 1, 0⟩]
    project_members := []
    tasks := []
    task_assignments := [] }

/-- Projects `"d1"` (owned by user 1) and `"d2"` (owned by user 2), for the
delete-endpoint theorems. -/
def storeDel : Store :=
  { users := [⟨1, "u", "u@x.com"⟩, ⟨2, "o", "o@x.com"⟩]
    projects :=
      [⟨1, "d1", "D1", "", "On track", "Low", 0, 0, 1, 0⟩,
       ⟨2, "d2", "D2", "", "On track", "Low", 0, 0, 2, 0⟩]
    project_members := []
    tasks := []
    task_assignments := [] }

/-- A fresh project row used by the `createProject` compensation witness. -/
def newProjectRow : ProjectRow :=
  ⟨7, "fresh", "N", "", "On track", "Low", 0, 0, 1, 0⟩

/-- The `"p1"` row of `storeScenario` (used by witnesses). -/
def scenarioP1 : ProjectRow :=
  ⟨1, "p1", "P1", "", "On track", "Low", 0, 8640000, 1, 0⟩

/-- The shaped record that task 10 of `storeMerge` produces in the
dashboard's upcoming-deadlines list (used by a witness). -/
def upcomingWitnessTask : FormattedTask :=
  { task_id := 10
    project_id := some 1
    project_uuid := "a"
    name := "T"
    description := ""
    status := "On track"
    priority := "Low"
    due_date := some 86400
    created_at := 0
    project := some ⟨1, "a", "A"⟩ }

/-! ## Basic lemmas: case folding and JS `Set` deduplication -/

theorem char_toNat_ofNat {n : Nat} (h : n.isValidChar) : (Char.ofNat n).toNat = n := by
  simp [Char.ofNat, h, Char.ofNatAux, Char.toNat, UInt32.toNat, BitVec.toNat_ofNatLt]

theorem char_toLower_idem (c : Char) : Char.toLower (Char.toLower c) = Char.toLower c := by
  simp only [Char.toLower]
  by_cases h : c.toNat ≥ 65 ∧ c.toNat ≤ 90
  · rw [if_pos h]
    have hv : Nat.isValidChar (c.toNat + 32) := by left; omega
    rw [if_neg]
    rw [char_toNat_ofNat hv]
    omega
  · rw [if_neg h, if_neg h]

theorem lowerStr_idem (s : String) : lowerStr (lowerStr s) = lowerStr s := by
  unfold lowerStr
  simp only [List.map_map]
  congr 1
  exact List.map_congr_left (fun c _ => by
    simp only [Function.comp_apply]; exact char_toLower_idem c)

theorem mem_foldl_jsSetStep {α : Type} [DecidableEq α] :
    ∀ (l acc : List α) (y : α), y ∈ l.foldl jsSetStep acc ↔ y ∈ acc ∨ y ∈ l := by
  intro l
  induction l with
  | nil => simp
  | cons x xs ih =>
    intro acc y
    rw [List.foldl_cons, ih]
    unfold jsSetStep
    by_cases hx : x ∈ acc
    · rw [if_pos hx]
      constructor
      · rintro (h | h)
        · exact Or.inl h
        · exact Or.inr (List.mem_cons_of_mem _ h)
      · rintro (h | h)
        · exact Or.inl h
        · rcases List.mem_cons.mp h with rfl | h
          · exact Or.inl hx
          · exact Or.inr h
    · rw [if_neg hx]
      simp only [List.mem_append, List.mem_singleton, List.mem_cons]
      tauto

theorem nodup_foldl_jsSetStep {α : Type} [DecidableEq α] :
    ∀ (l acc : List α), acc.Nodup → (l.foldl jsSetStep acc).Nodup := by
  intro l
  induction l with
  | nil => exact fun acc h => h
  | cons x xs ih =>
    intro acc hacc
    rw [List.foldl_cons]
    apply ih
    unfold jsSetStep
    by_cases hx : x ∈ acc
    · rwa [if_pos hx]
    · rw [if_neg hx]
      simp [List.nodup_append, hacc, hx]

theorem mem_jsSetDedup {α : Type} [DecidableEq α] {l : List α} {y : α} :
    y ∈ jsSetDedup l ↔ y ∈ l := by
  unfold jsSetDedup
  rw [mem_foldl_jsSetStep]
  simp

theorem nodup_jsSetDedup {α : Type} [DecidableEq α] (l : List α) :
    (jsSetDedup l).Nodup :=
  nodup_foldl_jsSetStep l [] List.nodup_nil

theorem jsSetDedup_eq_nil_iff {α : Type} [DecidableEq α] {l : List α} :
    jsSetDedup l = [] ↔ l = [] := by
  constructor
  · intro h
    cases l with
    | nil => rfl
    | cons x xs =>
      exfalso
      have : x ∈ jsSetDedup (x :: xs) := mem_jsSetDedup.mpr (List.mem_cons_self x xs)
      rw [h] at this
      exact List.not_mem_nil x this
  · rintro rfl; rfl

/-! ## Membership characterizations of the visibility sets -/

theorem mem_ownedProjectUuids {s : Store} {uid : Nat} {u : String} :
    u ∈ ownedProjectUuids s uid ↔
      ∃ p ∈ s.projects, p.owner_id = uid ∧ p.project_uuid = u := by
  simp only [ownedProjectUuids, List.mem_map, List.mem_filter, decide_eq_true_eq]
  constructor
  · rintro ⟨p, ⟨hp, ho⟩, rfl⟩
    exact ⟨p, hp, ho, rfl⟩
  · rintro ⟨p, hp, ho, rfl⟩
    exact ⟨p, ⟨hp, ho⟩, rfl⟩

theorem mem_memberProjectUuids {s : Store} {uid : Nat} {u : String} :
    u ∈ memberProjectUuids s uid ↔
      ∃ m ∈ s.project_members, m.user_id = some uid ∧ m.project_uuid = u := by
  simp only [memberProjectUuids, List.mem_map, List.mem_filter, decide_eq_true_eq]
  constructor
  · rintro ⟨m, ⟨hm, hu⟩, rfl⟩
    exact ⟨m, hm, hu, rfl⟩
  · rintro ⟨m, hm, hu, rfl⟩
    exact ⟨m, ⟨hm, hu⟩, rfl⟩

theorem mem_allProjectUuids {s : Store} {uid : Nat} {u : String} :
    u ∈ allProjectUuids s uid ↔
      u ∈ ownedProjectUuids s uid ∨ u ∈ memberProjectUuids s uid := by
  unfold allProjectUuids
  rw [mem_jsSetDedup, List.mem_append]

theorem mem_calendarOwnedProjects {s : Store} {uid : Nat} {range : Option (Nat × Nat)}
    {p : ProjectRow} :
    p ∈ calendarOwnedProjects s uid range ↔
      p ∈ s.projects ∧ p.owner_id = uid ∧ rangeOverlap range p := by
  unfold calendarOwnedProjects
  cases range with
  | none => simp [List.mem_filter, rangeOverlap, and_assoc]
  | some qr =>
    cases qr with
    | mk qs qe => simp [List.mem_filter, rangeOverlap, and_assoc]

theorem mem_calendarOwnedUuids {s : Store} {uid : Nat} {range : Option (Nat × Nat)}
    {u : String} :
    u ∈ (calendarOwnedProjects s uid range).map (·.project_uuid) ↔
      ∃ p ∈ s.projects, p.owner_id = uid ∧ rangeOverlap range p ∧ p.project_uuid = u := by
  simp only [List.mem_map]
  constructor
  · rintro ⟨p, hp, rfl⟩
    rcases mem_calendarOwnedProjects.mp hp with ⟨h1, h2, h3⟩
    exact ⟨p, h1, h2, h3, rfl⟩
  · rintro ⟨p, h1, h2, h3, rfl⟩
    exact ⟨p, mem_calendarOwnedProjects.mpr ⟨h1, h2, h3⟩, rfl⟩

theorem mem_calendarMemberRows {s : Store} {uid : Nat} {mp : MemberRow × Option ProjectRow} :
    mp ∈ calendarMemberRows s uid ↔
      mp.1 ∈ s.project_members ∧ mp.1.user_id = some uid ∧
        mp.2 = s.projects.find? (fun p => decide (p.project_uuid = mp.1.project_uuid)) := by
  simp only [calendarMemberRows, List.mem_map, List.mem_filter, decide_eq_true_eq]
  constructor
  · rintro ⟨m, ⟨hm, hu⟩, rfl⟩
    exact ⟨hm, hu, rfl⟩
  · rintro ⟨hm, hu, hfind⟩
    exact ⟨mp.1, ⟨hm, hu⟩, by rw [← hfind]⟩

theorem mem_calendarAssignmentRows {s : Store} {uid : Nat}
    {atp : AssignmentRow × Option TaskRow} :
    atp ∈ calendarAssignmentRows s uid ↔
      atp.1 ∈ s.task_assignments ∧ atp.1.user_id = uid ∧
        atp.2 = s.tasks.find? (fun t => decide (t.task_id = atp.1.task_id)) := by
  simp only [calendarAssignmentRows, List.mem_map, List.mem_filter, decide_eq_true_eq]
  constructor
  · rintro ⟨a, ⟨ha, hu⟩, rfl⟩
    exact ⟨ha, hu, rfl⟩
  · rintro ⟨ha, hu, hfind⟩
    exact ⟨atp.1, ⟨ha, hu⟩, by rw [← hfind]⟩

theorem mem_calendarMemberProjectUuids {s : Store} {uid : Nat} {u : String} :
    u ∈ calendarMemberProjectUuids s uid ↔
      ∃ m ∈ s.project_members, m.user_id = some uid ∧ m.project_uuid = u ∧
        ∃ p ∈ s.projects, p.project_uuid = u := by
  simp only [calendarMemberProjectUuids, List.mem_filterMap, Option.map_eq_some']
  constructor
  · rintro ⟨mp, hmp, p, hp2, rfl⟩
    rcases mem_calendarMemberRows.mp hmp with ⟨hm, hu, hfind⟩
    have hfp : s.projects.find?
        (fun q => decide (q.project_uuid = mp.1.project_uuid)) = some p :=
      hfind.symm.trans hp2
    have hp : p ∈ s.projects := List.mem_of_find?_eq_some hfp
    have hps := List.find?_some hfp
    have huuid : p.project_uuid = mp.1.project_uuid := by simpa using hps
    exact ⟨mp.1, hm, hu, huuid.symm, p, hp, rfl⟩
  · rintro ⟨m, hm, hu, huuid, p, hp, hpu⟩
    have hsome : (s.projects.find?
        (fun q => decide (q.project_uuid = m.project_uuid))).isSome := by
      rw [List.find?_isSome]
      exact ⟨p, hp, by simp [hpu, huuid]⟩
    rcases Option.isSome_iff_exists.mp hsome with ⟨q, hq⟩
    have hqs := List.find?_some hq
    have hqu : q.project_uuid = m.project_uuid := by simpa using hqs
    exact ⟨(m, some q), mem_calendarMemberRows.mpr ⟨hm, hu, by simp [hq]⟩, q, rfl,
      by rw [hqu, huuid]⟩

theorem mem_calendarAllProjectUuids {s : Store} {uid : Nat} {range : Option (Nat × Nat)}
    {u : String} :
    u ∈ calendarAllProjectUuids s uid range ↔
      u ∈ (calendarOwnedProjects s uid range).map (·.project_uuid) ∨
        u ∈ calendarMemberProjectUuids s uid := by
  unfold calendarAllProjectUuids
  rw [mem_jsSetDedup, List.mem_append]

/-! ## C1: visibility set = owner/member union, deduplicated -/

/-- C1, counterexample: with a supplied date range the calendar's
visibility set is *not* the plain owner/member union — user 1 owns project
`"a"` (days 0–0), yet the calendar visibility set for the range
[day 5, day 6] does not contain `"a"`. -/
theorem C1_counterexample_ranged_calendar :
    "a" ∈ ownedProjectUuids storeA 1 ∧
    "a" ∉ calendarAllProjectUuids storeA 1 (some (432000, 518400)) := by
  decide

/-- C1, amended: the dashboard's visibility set is always the deduplicated
union of owner-sourced and member-sourced project UUIDs (no UUID twice);
the calendar's set is the same union when no date range is supplied
(assuming member rows reference existing projects), while with a range its
owned source is restricted to projects overlapping the range, the member
source remaining unrestricted; deduplication holds in every mode. -/
theorem C1_visibility_union_dedup (s : Store) (uid : Nat) (range : Option (Nat × Nat))
    (hfk : ∀ m ∈ s.project_members, ∃ p ∈ s.projects, p.project_uuid = m.project_uuid) :
    ((allProjectUuids s uid).Nodup ∧
      ∀ u, u ∈ allProjectUuids s uid ↔
        u ∈ ownedProjectUuids s uid ∨ u ∈ memberProjectUuids s uid) ∧
    ((calendarAllProjectUuids s uid none).Nodup ∧
      ∀ u, u ∈ calendarAllProjectUuids s uid none ↔
        u ∈ ownedProjectUuids s uid ∨ u ∈ memberProjectUuids s uid) ∧
    ((calendarAllProjectUuids s uid range).Nodup ∧
      ∀ u, u ∈ calendarAllProjectUuids s uid range ↔
        (∃ p ∈ s.projects, p.owner_id = uid ∧ rangeOverlap range p ∧ p.project_uuid = u) ∨
          u ∈ memberProjectUuids s uid) := by
  have hmem : ∀ u : String, u ∈ calendarMemberProjectUuids s uid ↔
      u ∈ memberProjectUuids s uid := by
    intro u
    rw [mem_calendarMemberProjectUuids, mem_memberProjectUuids]
    constructor
    · rintro ⟨m, hm, hu, huuid, -⟩
      exact ⟨m, hm, hu, huuid⟩
    · rintro ⟨m, hm, hu, huuid⟩
      rcases hfk m hm with ⟨p, hp, hpu⟩
      exact ⟨m, hm, hu, huuid, p, hp, hpu.trans huuid⟩
  have hcal : ∀ (r : Option (Nat × Nat)) (u : String),
      u ∈ calendarAllProjectUuids s uid r ↔
        (∃ p ∈ s.projects, p.owner_id = uid ∧ rangeOverlap r p ∧ p.project_uuid = u) ∨
          u ∈ memberProjectUuids s uid := by
    intro r u
    rw [mem_calendarAllProjectUuids, mem_calendarOwnedUuids, hmem]
  refine ⟨⟨nodup_jsSetDedup _, fun u => mem_allProjectUuids⟩,
    ⟨nodup_jsSetDedup _, fun u => ?_⟩,
    ⟨nodup_jsSetDedup _, hcal range⟩⟩
  rw [hcal none, mem_ownedProjectUuids]
  simp [rangeOverlap]

/-- C1, witness: the amended theorem applied to `storeMerge` (where the
referential-integrity hypothesis holds). -/
theorem C1_visibility_union_dedup_witness :
    (∀ m ∈ storeMerge.project_members, ∃ p ∈ storeMerge.projects,
        p.project_uuid = m.project_uuid) ∧
    (((allProjectUuids storeMerge 1).Nodup ∧
      ∀ u, u ∈ allProjectUuids storeMerge 1 ↔
        u ∈ ownedProjectUuids storeMerge 1 ∨ u ∈ memberProjectUuids storeMerge 1) ∧
    ((calendarAllProjectUuids storeMerge 1 none).Nodup ∧
      ∀ u, u ∈ calendarAllProjectUuids storeMerge 1 none ↔
        u ∈ ownedProjectUuids storeMerge 1 ∨ u ∈ memberProjectUuids storeMerge 1) ∧
    ((calendarAllProjectUuids storeMerge 1 (some (0, 86400))).Nodup ∧
      ∀ u, u ∈ calendarAllProjectUuids storeMerge 1 (some (0, 86400)) ↔
        (∃ p ∈ storeMerge.projects, p.owner_id = 1 ∧
          rangeOverlap (some (0, 86400)) p ∧ p.project_uuid = u) ∨
          u ∈ memberProjectUuids storeMerge 1)) :=
  ⟨by decide, C1_visibility_union_dedup storeMerge 1 (some (0, 86400)) (by decide)⟩

/-! ## Counting helpers -/

theorem nodup_mem_singleton {α : Type} {l : List α} {a : α}
    (hn : l.Nodup) (h : ∀ x, x ∈ l ↔ x = a) : l = [a] := by
  cases l with
  | nil => exact absurd ((h a).mpr rfl) (List.not_mem_nil a)
  | cons x xs =>
    have hx : x = a := (h x).mp (List.mem_cons_self x xs)
    subst hx
    cases xs with
    | nil => rfl
    | cons y ys =>
      have hy : y = x := (h y).mp (List.mem_cons_of_mem _ (List.mem_cons_self y ys))
      subst hy
      exact absurd (List.mem_cons_self y ys) (List.nodup_cons.mp hn).1

theorem length_filter_key_eq_one {α κ : Type} [DecidableEq κ] (key : α → κ) :
    ∀ {l : List α} {k : κ}, (l.map key).Nodup → k ∈ l.map key →
      (l.filter (fun x => decide (key x = k))).length = 1 := by
  intro l
  induction l with
  | nil => intro k _ hk; exact absurd hk (List.not_mem_nil k)
  | cons x xs ih =>
    intro k hn hk
    rw [List.map_cons, List.nodup_cons] at hn
    by_cases hxk : key x = k
    · rw [List.filter_cons_of_pos (by simp [hxk])]
      have hnone : xs.filter (fun y => decide (key y = k)) = [] := by
        rw [List.filter_eq_nil_iff]
        intro y hy hky
        exact hn.1 (hxk ▸ (of_decide_eq_true hky) ▸ List.mem_map_of_mem key hy)
      simp [hnone]
    · rw [List.filter_cons_of_neg (by simp [hxk])]
      have hk' : k ∈ xs.map key := by
        rcases List.mem_cons.mp (List.map_cons key x xs ▸ hk) with h | h
        · exact absurd h.symm hxk
        · exact h
      exact ih hn.2 hk'

/-! ## C2: the §8 email-only-membership scenario -/

/-- C2, counterexample: in the §8 scenario store (user 1 owns `"p1"` and is
on `"p2"` only via an email-only member row with null `user_id`), the
dashboard for user 1 reports `totalProjects = 1`, not the 2 the claim
requires; `"p2"` is not even in the visibility set. -/
theorem C2_counterexample_totalProjects :
    (getDashboardData storeScenario 1 4320000).totalProjects = 1 ∧
    "p2" ∉ allProjectUuids storeScenario 1 := by
  decide

/-- C2, amended: in the scenario, the dashboard counts only the owned
project — an email-only member row (null `user_id`) contributes nothing to
the visibility set, because the member query filters on `user_id` equality
— and the team-size estimate counts the user exactly once. -/
theorem C2_email_only_member (s : Store) (uid : Nat) (p1 : String) (today : Nat)
    (hup : (s.projects.map (·.project_uuid)).Nodup)
    (hown : ∀ p ∈ s.projects, p.owner_id = uid ↔ p.project_uuid = p1)
    (hp1 : ∃ p ∈ s.projects, p.project_uuid = p1)
    (hmem : ∀ m ∈ s.project_members, m.user_id ≠ some uid)
    (hm1 : ∀ m ∈ s.project_members, m.project_uuid ≠ p1)
    (huid : uid ≠ 0) :
    (getDashboardData s uid today).totalProjects = 1 ∧
    (getDashboardData s uid today).totalTeamMembers = 1 := by
  have hmemall : ∀ u, u ∈ allProjectUuids s uid ↔ u = p1 := by
    intro u
    rw [mem_allProjectUuids, mem_ownedProjectUuids, mem_memberProjectUuids]
    constructor
    · rintro (⟨p, hp, ho, rfl⟩ | ⟨m, hm, hu, -⟩)
      · exact (hown p hp).mp ho
      · exact absurd hu (hmem m hm)
    · rintro rfl
      rcases hp1 with ⟨p, hp, hpu⟩
      exact Or.inl ⟨p, hp, (hown p hp).mpr hpu, hpu⟩
  have hall : allProjectUuids s uid = [p1] :=
    nodup_mem_singleton (by unfold allProjectUuids; exact nodup_jsSetDedup _) hmemall
  have hvis : visibleProjects s uid = s.projects.filter (fun p => decide (p.project_uuid = p1)) := by
    unfold visibleProjects
    apply List.filter_congr
    intro p _
    simp [hall]
  have hlen : (visibleProjects s uid).length = 1 := by
    rw [hvis]
    exact length_filter_key_eq_one (fun p : ProjectRow => p.project_uuid) hup
      (by rcases hp1 with ⟨p, hp, hpu⟩; rw [← hpu]; exact List.mem_map_of_mem _ hp)
  have hvm : visibleMembers s uid = [] := by
    unfold visibleMembers
    rw [List.filter_eq_nil_iff]
    intro m hm
    simp [hall, hm1 m hm]
  have hE : memberEmailSet s uid = ∅ := by
    unfold memberEmailSet
    rw [hvm]
    rfl
  rcases List.length_eq_one.mp hlen with ⟨p, hp⟩
  have hpmem : p ∈ visibleProjects s uid := hp ▸ List.mem_cons_self p []
  have hpowner : p.owner_id = uid := by
    rcases List.mem_filter.mp (hvis ▸ hpmem) with ⟨hps, hpu⟩
    exact (hown p hps).mpr (of_decide_eq_true hpu)
  have hbase : baseUserIds s uid = {uid} := by
    unfold baseUserIds
    rw [hp, hvm]
    rw [List.filter_cons_of_pos (by simp [hpowner, huid])]
    simp [hpowner]
  have hne : allProjectUuids s uid ≠ [] := by simp [hall]
  constructor
  · unfold getDashboardData
    rw [if_neg hne]
    exact hlen
  · unfold getDashboardData
    rw [if_neg hne]
    show totalTeamMembers s uid = 1
    unfold totalTeamMembers
    rw [if_pos hE, hbase]
    rfl

/-- C2, witness: the amended scenario theorem applied to the concrete
scenario store. -/
theorem C2_email_only_member_witness :
    ((storeScenario.projects.map (·.project_uuid)).Nodup ∧
      (∀ p ∈ storeScenario.projects, p.owner_id = 1 ↔ p.project_uuid = "p1") ∧
      (∃ p ∈ storeScenario.projects, p.project_uuid = "p1") ∧
      (∀ m ∈ storeScenario.project_members, m.user_id ≠ some 1) ∧
      (∀ m ∈ storeScenario.project_members, m.project_uuid ≠ "p1")) ∧
    ((getDashboardData storeScenario 1 4320000).totalProjects = 1 ∧
      (getDashboardData storeScenario 1 4320000).totalTeamMembers = 1) :=
  ⟨by decide, C2_email_only_member storeScenario 1 "p1" 4320000 (by decide) (by decide)
    (by decide) (by decide) (by decide) (by decide)⟩

/-! ## Lemmas about the `reduce`-based dedup with tie-break -/

theorem foldl_dedupStep_all_new {α κ : Type} [DecidableEq κ] (key : α → κ) (wins : α → Bool) :
    ∀ (l acc : List α), (((acc ++ l).map key).Nodup) →
      l.foldl (dedupStep key wins) acc = acc ++ l := by
  intro l
  induction l with
  | nil => intro acc _; simp
  | cons x xs ih =>
    intro acc hn
    have hnotin : ∀ y ∈ acc, ¬ (key y = key x) := by
      intro y hy hk
      have h1 : key y ∈ (acc.map key) := List.mem_map_of_mem key hy
      have h2 : ((acc.map key) ++ key x :: xs.map key).Nodup := by
        simpa using hn
      rcases List.nodup_append.mp h2 with ⟨-, -, hdisj⟩
      exact hdisj h1 (hk ▸ List.mem_cons_self _ _)
    have hstep : dedupStep key wins acc x = acc ++ [x] := by
      unfold dedupStep
      rw [List.findIdx?_eq_none_iff.mpr (fun y hy => by simp [hnotin y hy])]
    rw [List.foldl_cons, hstep, ih (acc ++ [x]) (by simpa using hn)]
    simp

theorem foldl_dedupStep_filter_frozen {α κ : Type} [DecidableEq κ]
    (key : α → κ) (wins : α → Bool) :
    ∀ (l acc : List α) (k : κ), (∀ x ∈ l, wins x = false) → (∃ y ∈ acc, key y = k) →
      (l.foldl (dedupStep key wins) acc).filter (fun y => decide (key y = k)) =
        acc.filter (fun y => decide (key y = k)) := by
  intro l
  induction l with
  | nil => intro acc k _ _; rfl
  | cons x xs ih =>
    intro acc k hw hy
    rw [List.foldl_cons]
    rcases hy with ⟨y, hy, hyk⟩
    have hw' : ∀ z ∈ xs, wins z = false := fun z hz => hw z (List.mem_cons_of_mem x hz)
    have hd : dedupStep key wins acc x = acc ∨
        (dedupStep key wins acc x = acc ++ [x] ∧ ¬ (key x = k)) := by
      unfold dedupStep
      cases hfind : acc.findIdx? (fun z => decide (key z = key x)) with
      | none =>
        refine Or.inr ⟨rfl, fun hk => ?_⟩
        have := List.findIdx?_eq_none_iff.mp hfind y hy
        simp [hk, hyk] at this
      | some i =>
        exact Or.inl (by simp [hw x (List.mem_cons_self x xs)])
    rcases hd with h | ⟨h, hxk⟩
    · rw [h]
      exact ih acc k hw' ⟨y, hy, hyk⟩
    · rw [h, ih (acc ++ [x]) k hw' ⟨y, List.mem_append_left _ hy, hyk⟩,
        List.filter_append]
      simp [hxk]

/-- Keys of a `filterMap` image form a sublist of the source keys when the
partial map preserves the key of each list element. -/
theorem map_filterMap_sublist_key {α β κ : Type} (f : α → Option β) (ka : α → κ) (kb : β → κ) :
    ∀ l : List α, (∀ a ∈ l, ∀ b, f a = some b → kb b = ka a) →
      ((l.filterMap f).map kb).Sublist (l.map ka) := by
  intro l
  induction l with
  | nil => simp
  | cons a l ih =>
    intro h
    have ih' := ih (fun a' ha' => h a' (List.mem_cons_of_mem a ha'))
    rw [List.filterMap_cons, List.map_cons]
    cases hfa : f a with
    | none => exact ih'.cons (ka a)
    | some b =>
      rw [List.map_cons, h a (List.mem_cons_self a l) b hfa]
      exact ih'.cons₂ (ka a)

theorem nodup_task_ids_of_filtered_assignments {s : Store} {uid : Nat}
    (hA : (s.task_assignments.map (fun a => (a.task_id, a.user_id))).Nodup) :
    (((s.task_assignments.filter (fun a => decide (a.user_id = uid))).map
      (fun a => a.task_id))).Nodup := by
  have hsub : ((s.task_assignments.filter (fun a => decide (a.user_id = uid))).map
      (fun a => (a.task_id, a.user_id))).Nodup :=
    ((List.filter_sublist _).map _).nodup hA
  have hall : ∀ a ∈ s.task_assignments.filter (fun a => decide (a.user_id = uid)),
      a.user_id = uid := by
    intro a ha
    exact of_decide_eq_true (List.mem_filter.mp ha).2
  generalize hl : s.task_assignments.filter (fun a => decide (a.user_id = uid)) = l at hsub hall
  clear hl hA
  induction l with
  | nil => simp
  | cons a l ih =>
    rw [List.map_cons, List.nodup_cons] at hsub ⊢
    refine ⟨?_, ih hsub.2 (fun b hb => hall b (List.mem_cons_of_mem a hb))⟩
    intro hmem
    rcases List.mem_map.mp hmem with ⟨b, hb, hbk⟩
    apply hsub.1
    have : (b.task_id, b.user_id) = (a.task_id, a.user_id) := by
      rw [hbk, hall b (List.mem_cons_of_mem a hb), hall a (List.mem_cons_self a l)]
    exact this ▸ List.mem_map_of_mem _ hb

/-! ## C3: owned-wins and assigned-wins tie-breaks in the calendar merge -/

theorem calendarOwnedCal_keys_nodup (s : Store) (uid : Nat) (range : Option (Nat × Nat))
    (hP : (s.projects.map (fun p => p.project_uuid)).Nodup) :
    (((calendarOwnedProjects s uid range).map
      (fun p => CalendarProject.mk p "owner" true)).map
        (fun cp => cp.project.project_uuid)).Nodup := by
  rw [List.map_map]
  exact ((List.filter_sublist _).map (fun p : ProjectRow => p.project_uuid)).nodup hP

theorem calendarMemberCal_not_owner (s : Store) (uid : Nat) :
    ∀ cp ∈ (calendarMemberRows s uid).filterMap
        (fun mp => mp.2.map (fun p => CalendarProject.mk p mp.1.role false)),
      cp.isOwner = false := by
  intro cp hcp
  rcases List.mem_filterMap.mp hcp with ⟨mp, -, heq⟩
  rcases Option.map_eq_some'.mp heq with ⟨p, -, rfl⟩
  rfl

theorem calendarUniqueProjects_filter_owned (s : Store) (uid : Nat)
    (range : Option (Nat × Nat)) (x : String)
    (hP : (s.projects.map (fun p => p.project_uuid)).Nodup)
    (hx1 : x ∈ (calendarOwnedProjects s uid range).map (fun p => p.project_uuid)) :
    (calendarUniqueProjects s uid range).filter
        (fun cp => decide (cp.project.project_uuid = x)) =
      ((calendarOwnedProjects s uid range).map
        (fun p => CalendarProject.mk p "owner" true)).filter
        (fun cp => decide (cp.project.project_uuid = x)) := by
  unfold calendarUniqueProjects dedupByKey calendarFormattedProjects
  rw [List.foldl_append]
  rw [foldl_dedupStep_all_new (fun cp : CalendarProject => cp.project.project_uuid)
    (fun cp => cp.isOwner) _ []
    (by simpa using calendarOwnedCal_keys_nodup s uid range hP)]
  rw [List.nil_append]
  rcases List.mem_map.mp hx1 with ⟨p, hp, hpx⟩
  exact foldl_dedupStep_filter_frozen _ _ _ _ x
    (calendarMemberCal_not_owner s uid)
    ⟨CalendarProject.mk p "owner" true, List.mem_map_of_mem _ hp, hpx⟩

theorem calendarAssignedKeys_nodup (s : Store) (uid : Nat) (range : Option (Nat × Nat))
    (hA : (s.task_assignments.map (fun a => (a.task_id, a.user_id))).Nodup) :
    ((calendarFormattedAssignedTasks s uid range).map
      (fun ct => ct.task.task_id)).Nodup := by
  unfold calendarFormattedAssignedTasks
  rw [List.map_map]
  show ((calendarAssignedTasks s uid range).map (fun at' => at'.2.task_id)).Nodup
  unfold calendarAssignedTasks
  have hkey : ∀ atp ∈ calendarAssignmentRows s uid,
      ∀ b : AssignmentRow × TaskRow,
        (match atp.2 with
          | some t =>
            if t.project_uuid ∈ calendarAllProjectUuids s uid range then some (atp.1, t)
            else none
          | none => none) = some b →
        b.2.task_id = atp.1.task_id := by
    intro atp hatp b hb
    rcases mem_calendarAssignmentRows.mp hatp with ⟨-, -, hfind⟩
    cases h2 : atp.2 with
    | none => rw [h2] at hb; exact absurd hb (by simp)
    | some t =>
      rw [h2] at hb
      have hb' : (if t.project_uuid ∈ calendarAllProjectUuids s uid range then
          some (atp.1, t) else none) = some b := hb
      by_cases hv : t.project_uuid ∈ calendarAllProjectUuids s uid range
      · rw [if_pos hv] at hb'
        cases hb'
        have hfs : s.tasks.find? (fun q => decide (q.task_id = atp.1.task_id)) = some t :=
          hfind.symm.trans h2
        have := List.find?_some hfs
        simpa using this
      · rw [if_neg hv] at hb'
        exact absurd hb' (by simp)
  have hsub := map_filterMap_sublist_key _ (fun atp => atp.1.task_id)
    (fun b : AssignmentRow × TaskRow => b.2.task_id) (calendarAssignmentRows s uid) hkey
  apply hsub.nodup
  unfold calendarAssignmentRows
  rw [List.map_map]
  exact nodup_task_ids_of_filtered_assignments hA

theorem calendarPlainTasks_not_assigned (s : Store) (uid : Nat)
    (range : Option (Nat × Nat)) :
    ∀ ct ∈ (calendarProjectTasks s uid range).map (fun t =>
        ({ task := t, name := t.title
           project := projectsMapFind (calendarProjectsMapSource s uid range) t.project_uuid
           assigned_at := none, isAssigned := false } : CalendarTask)),
      ct.isAssigned = false := by
  intro ct hct
  rcases List.mem_map.mp hct with ⟨t, -, rfl⟩
  rfl

theorem calendarUniqueTasks_filter_assigned (s : Store) (uid : Nat)
    (range : Option (Nat × Nat)) (tid : Nat)
    (hA : (s.task_assignments.map (fun a => (a.task_id, a.user_id))).Nodup)
    (ht1 : tid ∈ (calendarFormattedAssignedTasks s uid range).map
      (fun ct => ct.task.task_id)) :
    (calendarUniqueTasks s uid range).filter
        (fun ct => decide (ct.task.task_id = tid)) =
      (calendarFormattedAssignedTasks s uid range).filter
        (fun ct => decide (ct.task.task_id = tid)) := by
  unfold calendarUniqueTasks dedupByKey calendarAllTasks
  rw [List.foldl_append]
  rw [foldl_dedupStep_all_new (fun ct : CalendarTask => ct.task.task_id)
    (fun ct => ct.isAssigned) _ []
    (by simpa using calendarAssignedKeys_nodup s uid range hA)]
  rw [List.nil_append]
  rcases List.mem_map.mp ht1 with ⟨ct, hct, hctk⟩
  exact foldl_dedupStep_filter_frozen _ _ _ _ tid
    (calendarPlainTasks_not_assigned s uid range) ⟨ct, hct, hctk⟩

/-- C3, confirmed: when a project UUID occurs in both the calendar's owned
and member lists, the deduplicated project list has exactly one entry for
it — the owned-shaped record (role `"owner"`, `isOwner` true); when a task
id occurs in both the assigned and the plain project-task lists, the
returned task list has exactly one entry for it — the assigned variant
carrying `assigned_at`. -/
theorem C3_merge_tie_breaks (s : Store) (uid : Nat) (range : Option (Nat × Nat))
    (x : String) (tid : Nat)
    (hP : (s.projects.map (fun p => p.project_uuid)).Nodup)
    (hA : (s.task_assignments.map (fun a => (a.task_id, a.user_id))).Nodup)
    (hx1 : x ∈ (calendarOwnedProjects s uid range).map (fun p => p.project_uuid))
    (_hx2 : x ∈ calendarMemberProjectUuids s uid)
    (ht1 : tid ∈ (calendarFormattedAssignedTasks s uid range).map
      (fun ct => ct.task.task_id))
    (_ht2 : tid ∈ (calendarProjectTasks s uid range).map (fun t => t.task_id)) :
    ((calendarUniqueProjects s uid range).countP
        (fun cp => decide (cp.project.project_uuid = x)) = 1 ∧
      ∀ cp ∈ calendarUniqueProjects s uid range, cp.project.project_uuid = x →
        cp.role = "owner" ∧ cp.isOwner = true) ∧
    ((calendarUniqueTasks s uid range).countP
        (fun ct => decide (ct.task.task_id = tid)) = 1 ∧
      ∀ ct ∈ calendarUniqueTasks s uid range, ct.task.task_id = tid →
        ct.isAssigned = true ∧ ct.assigned_at.isSome) := by
  have hpfilter := calendarUniqueProjects_filter_owned s uid range x hP hx1
  have htfilter := calendarUniqueTasks_filter_assigned s uid range tid hA ht1
  refine ⟨⟨?_, ?_⟩, ?_, ?_⟩
  · rw [List.countP_eq_length_filter, hpfilter]
    exact length_filter_key_eq_one (fun cp : CalendarProject => cp.project.project_uuid)
      (calendarOwnedCal_keys_nodup s uid range hP)
      (by rcases List.mem_map.mp hx1 with ⟨p, hp, hpx⟩
          exact hpx ▸ List.mem_map_of_mem _ (List.mem_map_of_mem _ hp))
  · intro cp hcp hcpx
    have : cp ∈ ((calendarOwnedProjects s uid range).map
        (fun p => CalendarProject.mk p "owner" true)).filter
          (fun cp => decide (cp.project.project_uuid = x)) := by
      rw [← hpfilter]
      exact List.mem_filter.mpr ⟨hcp, by simp [hcpx]⟩
    rcases List.mem_map.mp (List.mem_of_mem_filter this) with ⟨p, -, rfl⟩
    exact ⟨rfl, rfl⟩
  · rw [List.countP_eq_length_filter, htfilter]
    exact length_filter_key_eq_one (fun ct : CalendarTask => ct.task.task_id)
      (calendarAssignedKeys_nodup s uid range hA) ht1
  · intro ct hct hctk
    have : ct ∈ (calendarFormattedAssignedTasks s uid range).filter
        (fun ct => decide (ct.task.task_id = tid)) := by
      rw [← htfilter]
      exact List.mem_filter.mpr ⟨hct, by simp [hctk]⟩
    rcases List.mem_map.mp (List.mem_of_mem_filter this) with ⟨at', -, rfl⟩
    exact ⟨rfl, rfl⟩

/-- C3, witness: the tie-break theorem applied to `storeMerge`, where
project `"a"` is both owned and member-listed and task 10 is both assigned
and a plain project task. -/
theorem C3_merge_tie_breaks_witness :
    ((storeMerge.projects.map (fun p => p.project_uuid)).Nodup ∧
      (storeMerge.task_assignments.map (fun a => (a.task_id, a.user_id))).Nodup ∧
      "a" ∈ (calendarOwnedProjects storeMerge 1 none).map (fun p => p.project_uuid) ∧
      "a" ∈ calendarMemberProjectUuids storeMerge 1 ∧
      10 ∈ (calendarFormattedAssignedTasks storeMerge 1 none).map
        (fun ct => ct.task.task_id) ∧
      10 ∈ (calendarProjectTasks storeMerge 1 none).map (fun t => t.task_id)) ∧
    (((calendarUniqueProjects storeMerge 1 none).countP
        (fun cp => decide (cp.project.project_uuid = "a")) = 1 ∧
      ∀ cp ∈ calendarUniqueProjects storeMerge 1 none, cp.project.project_uuid = "a" →
        cp.role = "owner" ∧ cp.isOwner = true) ∧
    ((calendarUniqueTasks storeMerge 1 none).countP
        (fun ct => decide (ct.task.task_id = 10)) = 1 ∧
      ∀ ct ∈ calendarUniqueTasks storeMerge 1 none, ct.task.task_id = 10 →
        ct.isAssigned = true ∧ ct.assigned_at.isSome)) :=
  ⟨by decide, C3_merge_tie_breaks storeMerge 1 none "a" 10 (by decide) (by decide)
    (by decide) (by decide) (by decide) (by decide)⟩

/-! ## C4: the upcoming-deadlines list -/

/-- C4, confirmed: every task in `upcomingDeadlines` has a non-null due
date whose day lies in the inclusive window `[today, today + 14 days]`; the
list is ordered by due date soonest-first and holds at most 10 entries. -/
theorem C4_upcoming_deadlines (s : Store) (uid today : Nat) :
    (∀ ft ∈ upcomingDeadlines s uid today, ∃ d, ft.due_date = some d ∧
      dayOf today ≤ dayOf d ∧ dayOf d ≤ dayOf today + 14) ∧
    (upcomingDeadlines s uid today).Pairwise
      (fun a b => a.due_date.getD 0 ≤ b.due_date.getD 0) ∧
    (upcomingDeadlines s uid today).length ≤ 10 := by
  haveI htot : IsTotal TaskRow (fun a b => a.due_date.getD 0 ≤ b.due_date.getD 0) :=
    ⟨fun a b => Nat.le_total _ _⟩
  haveI htrans : IsTrans TaskRow (fun a b => a.due_date.getD 0 ≤ b.due_date.getD 0) :=
    ⟨fun _ _ _ hab hbc => le_trans hab hbc⟩
  refine ⟨?_, ?_, ?_⟩
  · intro ft hft
    rcases List.mem_map.mp hft with ⟨t, ht, rfl⟩
    have ht' : t ∈ (s.tasks.filter (fun t =>
        decide (t.project_uuid ∈ allProjectUuids s uid) &&
        match t.due_date with
        | some d => decide (dayOf d ≤ dayOf today + 14) && decide (dayOf today ≤ dayOf d)
        | none => false)) := by
      have h1 : t ∈ (s.tasks.filter _).insertionSort
          (fun a b => a.due_date.getD 0 ≤ b.due_date.getD 0) :=
        List.take_subset 10 _ ht
      exact (List.perm_insertionSort _ _).subset h1
    have hpred := (List.mem_filter.mp ht').2
    rw [Bool.and_eq_true] at hpred
    cases hd : t.due_date with
    | none =>
      rw [hd] at hpred
      exact absurd hpred.2 (by simp)
    | some d =>
      rw [hd] at hpred
      obtain ⟨-, hw⟩ := hpred
      rw [Bool.and_eq_true] at hw
      exact ⟨d, hd, of_decide_eq_true hw.2, of_decide_eq_true hw.1⟩
  · have hsorted := List.sorted_insertionSort
      (fun a b : TaskRow => a.due_date.getD 0 ≤ b.due_date.getD 0)
      (s.tasks.filter (fun t =>
        decide (t.project_uuid ∈ allProjectUuids s uid) &&
        match t.due_date with
        | some d => decide (dayOf d ≤ dayOf today + 14) && decide (dayOf today ≤ dayOf d)
        | none => false))
    have htake : (upcomingTasksRaw s uid today).Pairwise
        (fun a b : TaskRow => a.due_date.getD 0 ≤ b.due_date.getD 0) :=
      hsorted.sublist (List.take_sublist 10 _)
    unfold upcomingDeadlines
    rw [List.pairwise_map]
    exact htake.imp (fun h => h)
  · unfold upcomingDeadlines upcomingTasksRaw
    rw [List.length_map]
    exact List.length_take_le 10 _

/-- C4, witness: the window/order/cap theorem instantiated on
`storeMerge`, whose task 10 (due day 1) appears in the list for day 0. -/
theorem C4_upcoming_deadlines_witness :
    upcomingWitnessTask ∈ upcomingDeadlines storeMerge 1 0 ∧
    (∃ d, upcomingWitnessTask.due_date = some d ∧
      dayOf 0 ≤ dayOf d ∧ dayOf d ≤ dayOf 0 + 14) :=
  ⟨by decide, (C4_upcoming_deadlines storeMerge 1 0).1 upcomingWitnessTask (by decide)⟩

/-! ## C5: completed-projects count, date-only comparison -/

/-- C5, confirmed: the dashboard's `completedProjects` field counts exactly
the visible projects whose `end_date` day is strictly before today's day
(time-of-day ignored on both sides); every other visible project is
excluded.  Since `projects.end_date` is `NOT NULL` in the schema
(`types/database.ts` declares `end_date: string`), the null case of the
claim is vacuous and the row type carries a total `end_date`. -/
theorem C5_completed_projects (s : Store) (uid today : Nat) :
    (getDashboardData s uid today).completedProjects =
      (completedProjects s uid today).length ∧
    (∀ p ∈ visibleProjects s uid,
      (p ∈ completedProjects s uid today ↔ dayOf p.end_date < dayOf today)) ∧
    (∀ t₁ t₂ : Nat, dayOf t₁ = dayOf t₂ →
      completedProjects s uid t₁ = completedProjects s uid t₂) := by
  refine ⟨?_, ?_, ?_⟩
  · unfold getDashboardData
    by_cases h : allProjectUuids s uid = []
    · rw [if_pos h]
      show 0 = (completedProjects s uid today).length
      have hvis : visibleProjects s uid = [] := by
        unfold visibleProjects
        rw [List.filter_eq_nil_iff]
        intro p _
        simp [h]
      unfold completedProjects
      rw [hvis]
      rfl
    · rw [if_neg h]
  · intro p hp
    constructor
    · intro hmem
      exact of_decide_eq_true (List.mem_filter.mp hmem).2
    · intro hlt
      exact List.mem_filter.mpr ⟨hp, by simp [hlt]⟩
  · intro t₁ t₂ ht
    unfold completedProjects
    rw [ht]

/-- C5, witness: the characterization applied to `storeScenario`'s `"p1"`
(end day 100 is not before day 50, so it is not completed), including the
time-of-day-invariance at two timestamps of day 50. -/
theorem C5_completed_projects_witness :
    (scenarioP1 ∈ visibleProjects storeScenario 1) ∧
    (scenarioP1 ∈ completedProjects storeScenario 1 4320000 ↔
      dayOf scenarioP1.end_date < dayOf 4320000) ∧
    (dayOf 4320000 = dayOf 4320050) ∧
    completedProjects storeScenario 1 4320000 = completedProjects storeScenario 1 4320050 :=
  ⟨by decide,
    (C5_completed_projects storeScenario 1 4320000).2.1 scenarioP1 (by decide),
    by decide,
    (C5_completed_projects storeScenario 1 4320000).2.2 4320000 4320050 (by decide)⟩

/-! ## C6: membership characterizations for the team-size sets -/

theorem mem_visibleProjects {s : Store} {uid : Nat} {p : ProjectRow} :
    p ∈ visibleProjects s uid ↔ p ∈ s.projects ∧ p.project_uuid ∈ allProjectUuids s uid := by
  simp [visibleProjects, List.mem_filter]

theorem mem_visibleMembers {s : Store} {uid : Nat} {m : MemberRow} :
    m ∈ visibleMembers s uid ↔
      m ∈ s.project_members ∧ m.project_uuid ∈ allProjectUuids s uid := by
  simp [visibleMembers, List.mem_filter]

theorem mem_baseUserIds {s : Store} {uid x : Nat} :
    x ∈ baseUserIds s uid ↔
      ((∃ p ∈ visibleProjects s uid, p.owner_id ≠ 0 ∧ p.owner_id = x) ∨
        (∃ m ∈ visibleMembers s uid, m.user_id = some x ∧ x ≠ 0)) := by
  unfold baseUserIds
  rw [Finset.mem_union, List.mem_toFinset, List.mem_toFinset]
  constructor
  · rintro (h | h)
    · rcases List.mem_map.mp h with ⟨p, hp, rfl⟩
      rcases List.mem_filter.mp hp with ⟨hpv, hp0⟩
      exact Or.inl ⟨p, hpv, of_decide_eq_true hp0, rfl⟩
    · rcases List.mem_filterMap.mp h with ⟨m, hm, heq⟩
      cases hu : m.user_id with
      | none => rw [hu] at heq; exact absurd heq (by simp)
      | some v =>
        rw [hu] at heq
        have heq' : (if v ≠ 0 then some v else none) = some x := heq
        by_cases hv : v ≠ 0
        · rw [if_pos hv] at heq'
          cases heq'
          exact Or.inr ⟨m, hm, hu, hv⟩
        · rw [if_neg hv] at heq'
          exact absurd heq' (by simp)
  · rintro (⟨p, hp, h0, rfl⟩ | ⟨m, hm, hu, hx⟩)
    · exact Or.inl (List.mem_map_of_mem _ (List.mem_filter.mpr ⟨hp, by simp [h0]⟩))
    · refine Or.inr (List.mem_filterMap.mpr ⟨m, hm, ?_⟩)
      rw [hu]
      show (if x ≠ 0 then some x else none) = some x
      rw [if_pos hx]

theorem mem_memberEmailSet {s : Store} {uid : Nat} {e : String} :
    e ∈ memberEmailSet s uid ↔
      ∃ m ∈ visibleMembers s uid, m.member_email ≠ "" ∧ lowerStr m.member_email = e := by
  unfold memberEmailSet
  rw [List.mem_toFinset]
  constructor
  · intro h
    rcases List.mem_filterMap.mp h with ⟨m, hm, heq⟩
    by_cases hne : m.member_email ≠ ""
    · rw [if_pos hne] at heq
      cases heq
      exact ⟨m, hm, hne, rfl⟩
    · rw [if_neg hne] at heq
      exact absurd heq (by simp)
  · rintro ⟨m, hm, hne, rfl⟩
    refine List.mem_filterMap.mpr ⟨m, hm, ?_⟩
    rw [if_pos hne]

theorem mem_matchedIds {s : Store} {uid x : Nat} :
    x ∈ (((usersByEmail s uid).filter
        (fun u => decide (u.user_id ≠ 0))).map (·.user_id)).toFinset ↔
      ∃ u ∈ s.users, u.email ∈ memberEmailSet s uid ∧ u.user_id ≠ 0 ∧ u.user_id = x := by
  rw [List.mem_toFinset]
  constructor
  · intro h
    rcases List.mem_map.mp h with ⟨u, hu, rfl⟩
    rcases List.mem_filter.mp hu with ⟨hu1, hu0⟩
    rcases List.mem_filter.mp hu1 with ⟨hus, hue⟩
    exact ⟨u, hus, of_decide_eq_true hue, of_decide_eq_true hu0, rfl⟩
  · rintro ⟨u, hus, hue, hu0, rfl⟩
    exact List.mem_map_of_mem _ (List.mem_filter.mpr
      ⟨List.mem_filter.mpr ⟨hus, by simp [hue]⟩, by simp [hu0]⟩)

theorem mem_withAccounts {s : Store} {uid : Nat} {e : String} :
    e ∈ ((usersByEmail s uid).map (fun u => lowerStr u.email)).toFinset ↔
      ∃ u ∈ s.users, u.email ∈ memberEmailSet s uid ∧ lowerStr u.email = e := by
  rw [List.mem_toFinset]
  constructor
  · intro h
    rcases List.mem_map.mp h with ⟨u, hu, rfl⟩
    rcases List.mem_filter.mp hu with ⟨hus, hue⟩
    exact ⟨u, hus, of_decide_eq_true hue, rfl⟩
  · rintro ⟨u, hus, hue, rfl⟩
    exact List.mem_map_of_mem _ (List.mem_filter.mpr ⟨hus, by simp [hue]⟩)

/-! ## C6: the team-size refinement under schema well-formedness -/

theorem visibleMembers_eq_nil_of_emailSet_empty {s : Store} {uid : Nat}
    (hwf : WFStore s) (hE : memberEmailSet s uid = ∅) :
    visibleMembers s uid = [] := by
  rw [List.eq_nil_iff_forall_not_mem]
  intro m hm
  have hne : m.member_email ≠ "" :=
    (hwf.2.2 m (mem_visibleMembers.mp hm).1).1
  have : lowerStr m.member_email ∈ memberEmailSet s uid :=
    mem_memberEmailSet.mpr ⟨m, hm, hne, rfl⟩
  rw [hE] at this
  exact absurd this (Finset.not_mem_empty _)

theorem usersByEmail_eq_spec_filter {s : Store} {uid : Nat} (hwf : WFStore s) :
    usersByEmail s uid = s.users.filter (fun u =>
      (visibleMembers s uid).any (fun m =>
        decide (lowerStr u.email = lowerStr m.member_email))) := by
  apply List.filter_congr
  intro u hu
  have hle : lowerStr u.email = u.email := (hwf.1 u hu).1
  by_cases h : u.email ∈ memberEmailSet s uid
  · rcases mem_memberEmailSet.mp h with ⟨m, hm, -, hml⟩
    rw [decide_eq_true h]
    exact (List.any_eq_true.mpr ⟨m, hm, by simp [hle, hml]⟩).symm
  · rw [decide_eq_false h]
    symm
    rw [List.any_eq_false]
    intro m hm hdm
    have heq : lowerStr u.email = lowerStr m.member_email := of_decide_eq_true hdm
    apply h
    apply mem_memberEmailSet.mpr
    refine ⟨m, hm, (hwf.2.2 m (mem_visibleMembers.mp hm).1).1, ?_⟩
    rw [← heq, hle]

theorem totalTeamMembers_eq_spec (s : Store) (uid : Nat) (hwf : WFStore s) :
    totalTeamMembers s uid = teamSizeSpec s uid := by
  have hownersF : (visibleProjects s uid).filter (fun p => decide (p.owner_id ≠ 0)) =
      visibleProjects s uid := by
    rw [List.filter_eq_self]
    intro p hp
    simp [hwf.2.1 p (mem_visibleProjects.mp hp).1]
  have hresolvedF : (visibleMembers s uid).filterMap
      (fun m => match m.user_id with
        | some u => if u ≠ 0 then some u else none
        | none => none) =
      (visibleMembers s uid).filterMap (·.user_id) := by
    apply List.filterMap_congr
    intro m hm
    have h0 : m.user_id ≠ some 0 := (hwf.2.2 m (mem_visibleMembers.mp hm).1).2
    cases hu : m.user_id with
    | none => rfl
    | some v =>
      show (if v ≠ 0 then some v else none) = some v
      rw [if_pos (by intro hv; apply h0; rw [hu, hv])]
  unfold totalTeamMembers teamSizeSpec baseUserIds
  by_cases hE : memberEmailSet s uid = ∅
  · rw [if_pos hE]
    have hvm : visibleMembers s uid = [] :=
      visibleMembers_eq_nil_of_emailSet_empty hwf hE
    rw [hvm, hownersF]
    simp
  · rw [if_neg hE]
    have hmatched : ((usersByEmail s uid).filter (fun u => decide (u.user_id ≠ 0))) =
        usersByEmail s uid := by
      rw [List.filter_eq_self]
      intro u hu
      have hus : u ∈ s.users := (List.mem_filter.mp hu).1
      simp [(hwf.1 u hus).2]
    have hunreg : (memberEmailSet s uid \
        ((usersByEmail s uid).map (fun u => lowerStr u.email)).toFinset) =
        ((visibleMembers s uid).filterMap (fun m =>
          if s.users.any (fun u => decide (lowerStr u.email = lowerStr m.member_email)) then
            none
          else some (lowerStr m.member_email))).toFinset := by
      apply Finset.ext
      intro e
      rw [Finset.mem_sdiff, mem_memberEmailSet, mem_withAccounts, List.mem_toFinset]
      constructor
      · rintro ⟨⟨m, hm, hne, hml⟩, hnacc⟩
        refine List.mem_filterMap.mpr ⟨m, hm, ?_⟩
        have hnotany : ¬ (s.users.any (fun u =>
            decide (lowerStr u.email = lowerStr m.member_email)) = true) := by
          rw [List.any_eq_true]
          rintro ⟨u, hu, hdm⟩
          have heq : lowerStr u.email = lowerStr m.member_email := of_decide_eq_true hdm
          apply hnacc
          refine ⟨u, hu, ?_, by rw [heq, hml]⟩
          rw [← (hwf.1 u hu).1, heq]
          exact mem_memberEmailSet.mpr ⟨m, hm, hne, rfl⟩
        rw [if_neg hnotany, hml]
      · intro h
        rcases List.mem_filterMap.mp h with ⟨m, hm, heq⟩
        by_cases hany : s.users.any (fun u =>
            decide (lowerStr u.email = lowerStr m.member_email)) = true
        · rw [if_pos hany] at heq
          exact absurd heq (by simp)
        · rw [if_neg hany] at heq
          cases heq
          have hne : m.member_email ≠ "" :=
            (hwf.2.2 m (mem_visibleMembers.mp hm).1).1
          refine ⟨⟨m, hm, hne, rfl⟩, ?_⟩
          rintro ⟨u, hu, -, hul⟩
          apply hany
          rw [List.any_eq_true]
          refine ⟨u, hu, ?_⟩
          simp only [decide_eq_true_eq]
          exact hul
    rw [hownersF, hresolvedF, hmatched, hunreg, usersByEmail_eq_spec_filter hwf]

theorem totalTeamMembers_mono (s : Store) (uid : Nat) (m₀ : MemberRow) :
    totalTeamMembers s uid ≤
      totalTeamMembers { s with project_members := m₀ :: s.project_members } uid := by
  set s' : Store := { s with project_members := m₀ :: s.project_members } with hs'
  have hvisU : ∀ u, u ∈ allProjectUuids s uid → u ∈ allProjectUuids s' uid := by
    intro u hu
    rw [mem_allProjectUuids] at hu ⊢
    rcases hu with h | h
    · exact Or.inl h
    · right
      rw [mem_memberProjectUuids] at h ⊢
      rcases h with ⟨m, hm, h1, h2⟩
      exact ⟨m, List.mem_cons_of_mem _ hm, h1, h2⟩
  have hvisP : ∀ p, p ∈ visibleProjects s uid → p ∈ visibleProjects s' uid := by
    intro p hp
    rw [mem_visibleProjects] at hp ⊢
    exact ⟨hp.1, hvisU _ hp.2⟩
  have hvisM : ∀ m, m ∈ visibleMembers s uid → m ∈ visibleMembers s' uid := by
    intro m hm
    rw [mem_visibleMembers] at hm ⊢
    exact ⟨List.mem_cons_of_mem _ hm.1, hvisU _ hm.2⟩
  have hbase : baseUserIds s uid ⊆ baseUserIds s' uid := by
    intro x hx
    rw [mem_baseUserIds] at hx ⊢
    rcases hx with ⟨p, hp, h⟩ | ⟨m, hm, h⟩
    · exact Or.inl ⟨p, hvisP p hp, h⟩
    · exact Or.inr ⟨m, hvisM m hm, h⟩
  have hE : memberEmailSet s uid ⊆ memberEmailSet s' uid := by
    intro e he
    rw [mem_memberEmailSet] at he ⊢
    rcases he with ⟨m, hm, h⟩
    exact ⟨m, hvisM m hm, h⟩
  have hids : (baseUserIds s uid ∪
      ((((usersByEmail s uid).filter
        (fun u => decide (u.user_id ≠ 0))).map (·.user_id)).toFinset)) ⊆
      (baseUserIds s' uid ∪
      ((((usersByEmail s' uid).filter
        (fun u => decide (u.user_id ≠ 0))).map (·.user_id)).toFinset)) := by
    intro x hx
    rw [Finset.mem_union] at hx ⊢
    rcases hx with h | h
    · exact Or.inl (hbase h)
    · right
      rw [mem_matchedIds] at h ⊢
      rcases h with ⟨u, hu, huE, h0, rfl⟩
      exact ⟨u, hu, hE huE, h0, rfl⟩
  have hunreg : (memberEmailSet s uid \
      ((usersByEmail s uid).map (fun u => lowerStr u.email)).toFinset) ⊆
      (memberEmailSet s' uid \
      ((usersByEmail s' uid).map (fun u => lowerStr u.email)).toFinset) := by
    intro e he
    rw [Finset.mem_sdiff] at he ⊢
    refine ⟨hE he.1, ?_⟩
    intro hacc
    rw [mem_withAccounts] at hacc
    rcases hacc with ⟨u, hu, huE', hul⟩
    rcases mem_memberEmailSet.mp huE' with ⟨m, hm, hne, hml⟩
    have hfix : lowerStr u.email = u.email := by rw [← hml, lowerStr_idem]
    have hue : u.email = e := by rw [← hfix, hul]
    apply he.2
    rw [mem_withAccounts]
    exact ⟨u, hu, by rw [hue]; exact he.1, hul⟩
  unfold totalTeamMembers
  by_cases h1 : memberEmailSet s uid = ∅
  · rw [if_pos h1]
    by_cases h2 : memberEmailSet s' uid = ∅
    · rw [if_pos h2]
      exact Finset.card_le_card hbase
    · rw [if_neg h2]
      calc (baseUserIds s uid).card
          ≤ (baseUserIds s' uid ∪
              ((((usersByEmail s' uid).filter
                (fun u => decide (u.user_id ≠ 0))).map (·.user_id)).toFinset)).card :=
            Finset.card_le_card (fun x hx =>
              Finset.mem_union.mpr (Or.inl (hbase hx)))
        _ ≤ _ := Nat.le_add_right _ _
  · have h2 : ¬ memberEmailSet s' uid = ∅ := by
      intro h2
      exact h1 (Finset.subset_empty.mp (h2 ▸ hE))
    rw [if_neg h1, if_neg h2]
    exact Nat.add_le_add (Finset.card_le_card hids) (Finset.card_le_card hunreg)

/-- C6, confirmed: under the schema invariants (canonical lower-case user
emails, positive serial ids, non-null member emails) the dashboard
team-size estimate equals the number of distinct known user ids — owners,
resolved members, and users whose registered email case-insensitively
matches an invited email — plus the number of invited emails matching no
registered user; and it is monotone non-decreasing under adding a member
row, never counting a resolving email as an extra member. -/
theorem C6_team_size (s : Store) (uid : Nat) :
    (WFStore s → totalTeamMembers s uid = teamSizeSpec s uid) ∧
    (∀ m₀ : MemberRow, totalTeamMembers s uid ≤
      totalTeamMembers { s with project_members := m₀ :: s.project_members } uid) :=
  ⟨fun hwf => totalTeamMembers_eq_spec s uid hwf,
    fun m₀ => totalTeamMembers_mono s uid m₀⟩

/-- C6, witness: the refinement and monotonicity applied to `storeTeam`
(where code and spec both compute a team size of 2) and the member row
`⟨"p1", none, "c@z.com", "viewer"⟩`. -/
theorem C6_team_size_witness :
    WFStore storeTeam ∧
    (totalTeamMembers storeTeam 1 = teamSizeSpec storeTeam 1 ∧
      totalTeamMembers storeTeam 1 ≤
        totalTeamMembers { storeTeam with project_members :=
          ⟨"p1", none, "c@z.com", "viewer"⟩ :: storeTeam.project_members } 1) :=
  ⟨by decide,
    (C6_team_size storeTeam 1).1 (by decide),
    (C6_team_size storeTeam 1).2 ⟨"p1", none, "c@z.com", "viewer"⟩⟩

/-! ## C7: bulk member add — normalize, dedup, drop existing, insert new -/

/-- C7, confirmed: with an authorized (owner) request and a non-empty
cleaned input, the bulk add first trim/lower-cases and dedups the input
and drops emails already present; if nothing new remains it returns the
409 conflict inserting nothing, otherwise it inserts exactly one row per
new email — whose emails are precisely the new subset. -/
theorem C7_bulk_member_add (s : Store) (projectUuid : String) (userId : Nat)
    (emails : List String) (defaultRole : Option String) (project : ProjectRow)
    (hne : emails.isEmpty = false)
    (hfind : s.projects.find? (fun p => decide (p.project_uuid = projectUuid)) =
      some project)
    (hown : project.owner_id = userId)
    (hclean : (cleanEmails emails).isEmpty = false) :
    (bulkNewEmails s projectUuid emails = [] →
      bulkAddProjectMembers s projectUuid userId (some emails) defaultRole =
        (.conflict, s)) ∧
    (bulkNewEmails s projectUuid emails ≠ [] →
      bulkAddProjectMembers s projectUuid userId (some emails) defaultRole =
        (.created (bulkInsertRows s projectUuid emails defaultRole),
          { s with project_members :=
              s.project_members ++ bulkInsertRows s projectUuid emails defaultRole }) ∧
      (bulkInsertRows s projectUuid emails defaultRole).map (·.member_email) =
        bulkNewEmails s projectUuid emails) := by
  have hbase : bulkAddProjectMembers s projectUuid userId (some emails) defaultRole =
      (if (bulkNewEmails s projectUuid emails).isEmpty then (.conflict, s)
       else
        (.created (bulkInsertRows s projectUuid emails defaultRole),
          { s with project_members :=
              s.project_members ++ bulkInsertRows s projectUuid emails defaultRole })) := by
    simp only [bulkAddProjectMembers, hne, hfind, hclean, Bool.false_eq_true, if_false]
    rw [if_neg (by rw [hown]; simp)]
  constructor
  · intro hnil
    rw [hbase, if_pos (by rw [hnil]; rfl)]
  · intro hnn
    refine ⟨?_, ?_⟩
    · rw [hbase, if_neg (by simpa using hnn)]
    · unfold bulkInsertRows
      rw [List.map_map]
      apply List.map_id''
      intro e
      rfl

/-- C7, witness: the concrete example — input
`["a@x.com", "a@x.com", "B@x.com"]` against the empty-membered project
`"p"` of `storeBulk` inserts exactly the two rows `a@x.com` and `b@x.com`. -/
theorem C7_bulk_member_add_witness :
    (["a@x.com", "a@x.com", "B@x.com"].isEmpty = false ∧
      storeBulk.projects.find? (fun p => decide (p.project_uuid = "p")) =
        some ⟨1, "p", "P", "", "On track", "Low", 0, 0, 1, 0⟩ ∧
      (cleanEmails ["a@x.com", "a@x.com", "B@x.com"]).isEmpty = false ∧
      bulkNewEmails storeBulk "p" ["a@x.com", "a@x.com", "B@x.com"] =
        ["a@x.com", "b@x.com"]) ∧
    (bulkAddProjectMembers storeBulk "p" 1
        (some ["a@x.com", "a@x.com", "B@x.com"]) none =
      (.created (bulkInsertRows storeBulk "p" ["a@x.com", "a@x.com", "B@x.com"] none),
        { storeBulk with project_members :=
            storeBulk.project_members ++
              bulkInsertRows storeBulk "p" ["a@x.com", "a@x.com", "B@x.com"] none }) ∧
      (bulkInsertRows storeBulk "p" ["a@x.com", "a@x.com", "B@x.com"] none).map
        (·.member_email) = bulkNewEmails storeBulk "p" ["a@x.com", "a@x.com", "B@x.com"]) :=
  ⟨by decide,
    (C7_bulk_member_add storeBulk "p" 1 ["a@x.com", "a@x.com", "B@x.com"] none
      ⟨1, "p", "P", "", "On track", "Low", 0, 0, 1, 0⟩
      (by decide) (by decide) (by decide) (by decide)).2 (by decide)⟩

/-! ## C8 and C10: bulk project delete -/

/-- C8, confirmed: if any requested UUID resolves to a project owned by a
different user, the whole bulk delete is rejected with the 403 and the
store is untouched — the requester's own projects in the batch are not
deleted either. -/
theorem C8_bulk_delete_all_or_nothing (s : Store) (userId : Nat) (paramUuid : String)
    (bodyProjectIds : Option (List String)) (p : ProjectRow)
    (hp : p ∈ s.projects)
    (hreq : p.project_uuid ∈ requestedDeleteUuids paramUuid bodyProjectIds)
    (hnot : p.owner_id ≠ userId) :
    deleteProject s userId paramUuid bodyProjectIds = (.forbidden, s) := by
  unfold deleteProject
  rw [if_pos]
  apply List.length_pos.mpr
  apply List.ne_nil_of_mem (a := p)
  exact List.mem_filter.mpr
    ⟨List.mem_filter.mpr ⟨hp, by simp [hreq]⟩, by simp [hnot]⟩

/-- C8, witness: requesting `["d1", "d2"]` as user 1 against `storeDel`
(where `"d2"` belongs to user 2) rejects the whole batch and leaves the
store unchanged. -/
theorem C8_bulk_delete_all_or_nothing_witness :
    ((⟨2, "d2", "D2", "", "On track", "Low", 0, 0, 2, 0⟩ : ProjectRow) ∈
        storeDel.projects ∧
      "d2" ∈ requestedDeleteUuids "" (some ["d1", "d2"]) ∧
      (2 : Nat) ≠ 1) ∧
    deleteProject storeDel 1 "" (some ["d1", "d2"]) = (.forbidden, storeDel) :=
  ⟨by decide, C8_bulk_delete_all_or_nothing storeDel 1 "" (some ["d1", "d2"])
    ⟨2, "d2", "D2", "", "On track", "Low", 0, 0, 2, 0⟩
    (by decide) (by decide) (by decide)⟩

/-- C10, confirmed: when no requested UUID resolves to a foreign-owned
project, the delete succeeds, requested UUIDs matching no project are
silently ignored (no not-found outcome exists on this path), and the
reported `deletedCount` is the number of *requested* UUIDs — nonexistent
ones included — not the number of rows removed. -/
theorem C10_bulk_delete_counts_requested (s : Store) (userId : Nat) (paramUuid : String)
    (bodyProjectIds : Option (List String))
    (hall : ∀ p ∈ s.projects,
      p.project_uuid ∈ requestedDeleteUuids paramUuid bodyProjectIds →
        p.owner_id = userId) :
    deleteProject s userId paramUuid bodyProjectIds =
      (.success (requestedDeleteUuids paramUuid bodyProjectIds).length,
        { s with projects := s.projects.filter (fun p =>
            decide (p.project_uuid ∉ requestedDeleteUuids paramUuid bodyProjectIds)) }) := by
  unfold deleteProject
  rw [if_neg]
  simp only [not_lt, Nat.le_zero, List.length_eq_zero, List.filter_eq_nil_iff]
  intro p hp
  rcases List.mem_filter.mp hp with ⟨hps, hpu⟩
  simp [hall p hps (of_decide_eq_true hpu)]

/-- C10, witness: requesting `["d1", "ghost"]` as user 1 against `storeDel`
succeeds with `deletedCount = 2` although only the one existing row `"d1"`
is removed; the nonexistent `"ghost"` is silently ignored. -/
theorem C10_bulk_delete_counts_requested_witness :
    (∀ p ∈ storeDel.projects,
      p.project_uuid ∈ requestedDeleteUuids "" (some ["d1", "ghost"]) →
        p.owner_id = 1) ∧
    deleteProject storeDel 1 "" (some ["d1", "ghost"]) =
      (.success (requestedDeleteUuids "" (some ["d1", "ghost"])).length,
        { storeDel with projects := storeDel.projects.filter (fun p =>
            decide (p.project_uuid ∉ requestedDeleteUuids "" (some ["d1", "ghost"]))) }) :=
  ⟨by decide,
    C10_bulk_delete_counts_requested storeDel 1 "" (some ["d1", "ghost"]) (by decide)⟩

/-! ## C9: createProject compensation on later-step failure -/

/-- C9, confirmed: when the batch user lookup or the member insert fails
after the project row was created, `createProject` deletes the created row
before returning the error: assuming the generated uuid is fresh, the
final store is exactly the initial one — no project row survives. -/
theorem C9_create_project_compensation (s : Store) (newProject : ProjectRow)
    (emails : List String) (failAt : CreateFailure)
    (hclean : (cleanEmails emails).isEmpty = false)
    (hfresh : ∀ p ∈ s.projects, p.project_uuid ≠ newProject.project_uuid) :
    createProject s newProject (some emails) (some failAt) = (.storeError, s) := by
  have hroll : (s.projects ++ [newProject]).filter
      (fun p => decide (p.project_uuid ≠ newProject.project_uuid)) = s.projects := by
    rw [List.filter_append]
    have h1 : s.projects.filter
        (fun p => decide (p.project_uuid ≠ newProject.project_uuid)) = s.projects := by
      rw [List.filter_eq_self]
      intro p hp
      simp [hfresh p hp]
    have h2 : ([newProject] : List ProjectRow).filter
        (fun p => decide (p.project_uuid ≠ newProject.project_uuid)) = [] := by
      simp
    rw [h1, h2, List.append_nil]
  cases failAt with
  | usersLookup =>
    have hred : createProject s newProject (some emails) (some .usersLookup) =
        (.storeError,
          { s with
            projects :=
              (s.projects ++ [newProject]).filter
                (fun p => decide (p.project_uuid ≠ newProject.project_uuid)) }) := by
      simp [createProject, hclean]
    rw [hred, hroll]
  | membersInsert =>
    have hred : createProject s newProject (some emails) (some .membersInsert) =
        (.storeError,
          { s with
            projects :=
              (s.projects ++ [newProject]).filter
                (fun p => decide (p.project_uuid ≠ newProject.project_uuid)) }) := by
      simp [createProject, hclean]
    rw [hred, hroll]

/-- C9, witness: creating the fresh project over `storeDel` with one member
email while the member insert fails returns the store error and leaves the
store exactly as before. -/
theorem C9_create_project_compensation_witness :
    ((cleanEmails ["x@y.com"]).isEmpty = false ∧
      ∀ p ∈ storeDel.projects, p.project_uuid ≠ newProjectRow.project_uuid) ∧
    createProject storeDel newProjectRow (some ["x@y.com"]) (some .membersInsert) =
      (.storeError, storeDel) :=
  ⟨by decide,
    C9_create_project_compensation storeDel newProjectRow ["x@y.com"] .membersInsert
      (by decide) (by decide)⟩

end Boardy
